import Mathlib

/-!
Verification of the reconciliation engine of a task synchronizer that
mirrors tasks between two external stores (a Notion database and a Google
Tasks list).  The JavaScript source keeps three historical variants of the
sync service in one module: a Google-master variant with per-operation
error isolation, a second master-slave variant, and a hybrid variant
(timestamp-gated completion sync, one-way notes sync with smart
truncation).  The hybrid variant carries the content truncator and the
notes-update fallback.  Text is modelled as a list of characters
(JavaScript strings are bounded sequences of code units — length below
2 ^ 53 by the language specification; all inputs of interest are ASCII,
where code units and characters agree).
-/

set_option maxRecDepth 100000

namespace SyncSpec

/-- A character counts as whitespace for trim / collapse purposes (the
JavaScript sources only ever meet spaces, tabs and line breaks). -/
def isWs (c : Char) : Bool :=
  c == ' ' || c == '\t' || c == '\n' || c == '\r'

/-- Drop trailing whitespace: the right half of JavaScript trim. -/
def dropTrailingWs : List Char → List Char
  | [] => []
  | c :: cs =>
    let r := dropTrailingWs cs
    if r.isEmpty && isWs c then [] else c :: r

/-- JavaScript trim: strip leading and trailing whitespace. -/
def jsTrim (l : List Char) : List Char :=
  dropTrailingWs (l.dropWhile isWs)

/-- Character-wise lowercasing, the ASCII-faithful model of the JavaScript
toLowerCase call used in title matching. -/
def jsLower (l : List Char) : List Char :=
  l.map Char.toLower

/-- Collapse every run of whitespace to a single space; models the
replace of any whitespace run by a space in the hybrid variant's title
matching. -/
def collapseWs : List Char → List Char
  | [] => []
  | [c] => if isWs c then [' '] else [c]
  | c1 :: c2 :: rest =>
    if isWs c1 && isWs c2 then collapseWs (c2 :: rest)
    else (if isWs c1 then ' ' else c1) :: collapseWs (c2 :: rest)

/-- NormalizedTitleKey of the hybrid variant: trim, then lowercase, then
collapse internal whitespace runs. -/
def normalizeTitle (l : List Char) : List Char :=
  collapseWs (jsLower (jsTrim l))

/-- Decimal digit list of a natural number, fuel-driven so that it reduces
inside the kernel; models the template interpolation of a number into a
string in JavaScript. -/
def natDigitsAux : Nat → Nat → List Char → List Char
  | 0, _, acc => acc
  | fuel + 1, n, acc =>
    if n < 10 then Nat.digitChar (n % 10) :: acc
    else natDigitsAux fuel (n / 10) (Nat.digitChar (n % 10) :: acc)

/-- Decimal rendering of a natural number. -/
def natDigits (n : Nat) : List Char := natDigitsAux (n + 1) n []

/-- Split a text at line breaks; the result is never empty, mirroring the
JavaScript split on a newline. -/
def splitOnNl : List Char → List (List Char)
  | [] => [[]]
  | c :: cs =>
    match splitOnNl cs with
    | [] => [[]]
    | h :: t => if c = '\n' then [] :: h :: t else (c :: h) :: t

/-- Join texts with line breaks; the JavaScript join on a newline. -/
def joinNl : List (List Char) → List Char
  | [] => []
  | [l] => l
  | l :: ls => l ++ '\n' :: joinNl ls

/-- The omission suffix appended by createSmartTruncation, exactly as the
source writes it (note the store name inside the text). -/
def truncationSuffix (omitted : Nat) : List Char :=
  ('\n' :: '\n' :: "[... ".toList) ++ natDigits omitted ++
    " more characters in full Notion content ...]".toList

/-- The omission suffix as the specification document words it (store
name abstracted away).  Modelled from the spec for comparison with
truncationSuffix; it is not what the source produces. -/
def specClaimSuffix (omitted : Nat) : List Char :=
  ('\n' :: '\n' :: "[... ".toList) ++ natDigits omitted ++
    " more characters in full content ...]".toList

/-- createSmartTruncation from the hybrid variant: identity within the
limit; otherwise cut 100 characters short of the limit, drop the trailing
partial line when more than one line remains, and append the omission
suffix counting every character not kept. -/
def createSmartTruncation (content : List Char) (maxLength : Nat) : List Char :=
  if content.length ≤ maxLength then content
  else
    let truncateAt := maxLength - 100
    let lines := splitOnNl (content.take truncateAt)
    let lines1 := if lines.length > 1 then lines.dropLast else lines
    let truncated := joinNl lines1
    truncated ++ truncationSuffix (content.length - truncated.length)


/-- TaskRecord as both store adapters shape it: store id, title, completed
flag, optional due date, notes body, and the modification stamp (parsed to
milliseconds). -/
structure Task where
  id : Nat
  title : List Char
  completed : Bool
  due : Option (List Char)
  notes : List Char
  lastModified : Int
deriving DecidableEq

/-- Pass-scoped context of the hybrid variant: the two live store states,
the created / updated counters of the pass, and the next store-assigned
id. -/
structure SyncState where
  notion : List Task
  google : List Task
  created : Nat
  updated : Nat
  fresh : Nat
deriving DecidableEq

/-- Outcome of one updateGoogleNotes call: an empty write skipped, a write
of the given payload, or a propagated error code. -/
inductive NotesResult where
  | skipped : NotesResult
  | wrote : List Char → NotesResult
  | failed : Nat → NotesResult
deriving DecidableEq

/-- updateGoogleNotes of the hybrid variant: truncate oversized content to
8000, skip an empty write, and on a store error retry exactly once with
the content truncated to 4000, propagating the first error if the retry
also fails.  The oracle fail returns the error code of a payload the store
rejects, none when the call succeeds. -/
def updateGoogleNotes (fail : List Char → Option Nat) (notes : List Char) : NotesResult :=
  let processedNotes := if notes.length > 8000 then createSmartTruncation notes 8000 else notes
  if processedNotes.length = 0 then NotesResult.skipped
  else
    match fail processedNotes with
    | none => NotesResult.wrote processedNotes
    | some e =>
      let emergencyNotes := createSmartTruncation notes 4000
      match fail emergencyNotes with
      | none => NotesResult.wrote emergencyNotes
      | some _ => NotesResult.failed e

/-- Store update semantics shared by both adapters: the record carrying
the given id receives the new field values. -/
def updateTaskById (store : List Task) (tid : Nat) (f : Task → Task) : List Task :=
  store.map (fun t => if t.id = tid then f t else t)

/-- A completion write: the store sets the flag and a fresh stamp. -/
def setCompleted (now : Int) (b : Bool) (t : Task) : Task :=
  { t with completed := b, lastModified := now }

/-- A notes write: the store sets the body and a fresh stamp. -/
def setNotes (now : Int) (c : List Char) (t : Task) : Task :=
  { t with notes := c, lastModified := now }

/-- Matching of the hybrid variant: first task of the Notion snapshot with
a nonempty title equal to the Google task's title after normalization. -/
def findMatch (notionTasks : List Task) (g : Task) : Option Task :=
  notionTasks.find? (fun nt =>
    !(jsTrim nt.title).isEmpty && (normalizeTitle nt.title == normalizeTitle g.title))

/-- The Notion-only filter of the hybrid variant: nonempty title and no
normalized-title match anywhere in the Google snapshot. -/
def notionOnlyTasks (notionTasks googleTasks : List Task) : List Task :=
  notionTasks.filter (fun nt =>
    !(jsTrim nt.title).isEmpty &&
      (googleTasks.find? (fun gt =>
        !(jsTrim gt.title).isEmpty &&
          (normalizeTitle nt.title == normalizeTitle gt.title))).isNone)

/-- Creation payload of a Notion task made from an unmatched Google task in
phase 1 of the hybrid pass (notes copied untruncated). -/
def mkNotionTask (now : Int) (idv : Nat) (g : Task) : Task :=
  { id := idv, title := g.title, completed := g.completed, due := g.due,
    notes := g.notes, lastModified := now }

/-- Creation payload of a Google task made from a Notion-only task in
phase 2 of the hybrid pass, oversized notes truncated at creation time. -/
def mkGoogleTask (now : Int) (idv : Nat) (n : Task) : Task :=
  { id := idv, title := n.title, completed := n.completed, due := n.due,
    notes := if n.notes.length > 8000 then createSmartTruncation n.notes 8000 else n.notes,
    lastModified := now }

/-- One iteration of phase 1 of the hybrid pass over a Google task:
decisions are taken from the pass-start snapshot of the Notion side and the
Google task itself; effects land in the live store states carried by st.
A completion update fires on the stale side when the stamps differ by more
than the buffer; notes flow one way with the payload of a successful
updateGoogleNotes call; the updated counter moves once per task that
needed anything. -/
def processGoogleTask (buffer now : Int) (snapN : List Task) (st : SyncState) (g : Task) :
    SyncState :=
  if jsTrim g.title = [] then st
  else
    match findMatch snapN g with
    | some n =>
      let d := g.lastModified - n.lastModified
      let st1 :=
        if d > buffer then
          (if n.completed ≠ g.completed then
            { st with notion := updateTaskById st.notion n.id (setCompleted now g.completed) }
          else st)
        else if d < -buffer then
          (if g.completed ≠ n.completed then
            { st with google := updateTaskById st.google g.id (setCompleted now n.completed) }
          else st)
        else st
      let st2 :=
        if jsTrim n.notes ≠ jsTrim g.notes then
          (match updateGoogleNotes (fun _ => none) (jsTrim n.notes) with
           | NotesResult.wrote c =>
             { st1 with google := updateTaskById st1.google g.id (setNotes now c) }
           | _ => st1)
        else st1
      if (d > buffer ∧ n.completed ≠ g.completed) ∨
          (¬ d > buffer ∧ d < -buffer ∧ g.completed ≠ n.completed) ∨
          jsTrim n.notes ≠ jsTrim g.notes then
        { st2 with updated := st2.updated + 1 }
      else st2
    | none =>
      { st with
          notion := st.notion ++ [mkNotionTask now st.fresh g],
          created := st.created + 1,
          fresh := st.fresh + 1 }

/-- Phase 2 of the hybrid pass: create a Google task for every Notion-only
task; the filter is evaluated on the pass-start snapshots while the
creations land in the live Google store state. -/
def createNotionOnly (now : Int) (snapN snapG : List Task) (st : SyncState) : SyncState :=
  (notionOnlyTasks snapN snapG).foldl
    (fun st n =>
      { st with google := st.google ++ [mkGoogleTask now st.fresh n],
                created := st.created + 1, fresh := st.fresh + 1 })
    st

/-- One full pass of the hybrid variant with every store call succeeding:
the fetch is modelled by taking the live store states as the snapshots,
phase 1 walks the Google snapshot, phase 2 creates the Notion-only
tasks. -/
def performFullSync (buffer now : Int) (fresh : Nat) (notionTasks googleTasks : List Task) :
    SyncState :=
  let st0 : SyncState :=
    { notion := notionTasks, google := googleTasks, created := 0, updated := 0, fresh := fresh }
  let st1 := googleTasks.foldl (processGoogleTask buffer now notionTasks) st0
  createNotionOnly now notionTasks googleTasks st1

/-- The hard-coded conflict buffer of the hybrid variant, in
milliseconds. -/
def SYNC_BUFFER : Int := 5000

/-- The Google tasks created by phase 2 for a given run of Notion-only
tasks, with the store-assigned ids threaded through. -/
def createdGoogleFrom (now : Int) : List Task → Nat → List Task
  | [], _ => []
  | n :: rest, fr => mkGoogleTask now fr n :: createdGoogleFrom now rest (fr + 1)

/-- The Notion tasks created by phase 1 for the unmatched Google tasks of
a run, with the store-assigned ids threaded through. -/
def createdNotionFrom (now : Int) (snapN : List Task) : List Task → Nat → List Task
  | [], _ => []
  | g :: rest, fr =>
    if jsTrim g.title = [] then createdNotionFrom now snapN rest fr
    else match findMatch snapN g with
      | some _ => createdNotionFrom now snapN rest fr
      | none => mkNotionTask now fr g :: createdNotionFrom now snapN rest (fr + 1)

/-- Phase 2 of the hybrid pass with a creation oracle: the loop has no
per-operation guard in the source, so the first rejected creation throws,
the remaining creations never run, and the surrounding catch records one
pass-level error and rethrows.  The Bool of the result marks that abort. -/
def hybridCreateLoopE (now : Int) (createFail : Task → Bool) :
    List Task → SyncState → SyncState × Bool
  | [], st => (st, false)
  | n :: rest, st =>
    if createFail (mkGoogleTask now st.fresh n) then (st, true)
    else hybridCreateLoopE now createFail rest
      { st with google := st.google ++ [mkGoogleTask now st.fresh n],
                created := st.created + 1, fresh := st.fresh + 1 }

/-- Phase 2 of the hybrid pass with a creation oracle, the filter taken on
the pass-start snapshots, the creations applied to the live Google state
carried by st. -/
def createNotionOnlyE (now : Int) (createFail : Task → Bool) (snapN snapG : List Task)
    (st : SyncState) : SyncState × Bool :=
  hybridCreateLoopE now createFail (notionOnlyTasks snapN snapG) st

/-- Title key of the Google-master variant: trim and lowercase, with no
whitespace collapsing. -/
def normalizeV1 (l : List Char) : List Char :=
  jsLower (jsTrim l)

/-- Matching of the Google-master variant: first Notion task with a truthy
raw title whose trimmed lowercased title equals the Google one. -/
def v1FindMatch (notionTasks : List Task) (g : Task) : Option Task :=
  notionTasks.find? (fun nt =>
    !nt.title.isEmpty && (normalizeV1 nt.title == normalizeV1 g.title))

/-- Pass context of the Google-master variant: the live stores, the two
success counters of the pass, and the error counter. -/
structure V1State where
  notion : List Task
  google : List Task
  created : Nat
  updated : Nat
  errors : Nat
deriving DecidableEq

/-- Creation payload sent to the Notion store by the Google-master
variant. -/
def v1NotionPayload (now : Int) (g : Task) : Task :=
  { id := 0, title := g.title, completed := g.completed, due := g.due,
    notes := g.notes, lastModified := now }

/-- One iteration of phase 1 of the Google-master variant: a completion
copy to Notion or a creation on Notion, each apply wrapped individually so
a store rejection only moves the error counter and the loop continues.
The oracles updFail and createFail say which calls the store rejects. -/
def v1ProcessGoogleTask (now : Int) (updFail : Nat → Bool) (createFail : Task → Bool)
    (snapN : List Task) (st : V1State) (g : Task) : V1State :=
  if jsTrim g.title = [] then st
  else
    match v1FindMatch snapN g with
    | some n =>
      if n.completed ≠ g.completed then
        (if updFail n.id then { st with errors := st.errors + 1 }
         else { st with notion := updateTaskById st.notion n.id (setCompleted now g.completed),
                        updated := st.updated + 1 })
      else st
    | none =>
      if createFail (v1NotionPayload now g) then { st with errors := st.errors + 1 }
      else { st with notion := st.notion ++ [v1NotionPayload now g],
                     created := st.created + 1 }

/-- The Notion-only filter of the Google-master variant. -/
def v1NotionOnlyTasks (notionTasks googleTasks : List Task) : List Task :=
  notionTasks.filter (fun nt =>
    !(jsTrim nt.title).isEmpty &&
      (googleTasks.find? (fun gt =>
        !gt.title.isEmpty && (normalizeV1 gt.title == normalizeV1 nt.title))).isNone)

/-- Creation payload sent to the Google store by the Google-master
variant. -/
def v1GooglePayload (now : Int) (n : Task) : Task :=
  { id := 0, title := n.title, completed := n.completed, due := n.due,
    notes := n.notes, lastModified := now }

/-- Phase 2 of the Google-master variant: each creation individually
wrapped, a rejection moves the error counter and the loop continues. -/
def v1CreateLoop (now : Int) (createGFail : Task → Bool) (l : List Task) (st : V1State) :
    V1State :=
  l.foldl
    (fun st n =>
      if createGFail (v1GooglePayload now n) then { st with errors := st.errors + 1 }
      else { st with google := st.google ++ [v1GooglePayload now n],
                     created := st.created + 1 })
    st

/-- One full pass of the Google-master variant under the three store
oracles. -/
def v1PerformFullSync (now : Int) (updFail : Nat → Bool) (createNFail createGFail : Task → Bool)
    (notionTasks googleTasks : List Task) : V1State :=
  let st0 : V1State :=
    { notion := notionTasks, google := googleTasks, created := 0, updated := 0, errors := 0 }
  let st1 := googleTasks.foldl (v1ProcessGoogleTask now updFail createNFail notionTasks) st0
  v1CreateLoop now createGFail (v1NotionOnlyTasks notionTasks googleTasks) st1

/-- Classifier: this Google task leads to a successful completion update
in phase 1 of the Google-master variant. -/
def v1UpdSuccessB (updFail : Nat → Bool) (snapN : List Task) (g : Task) : Bool :=
  !(jsTrim g.title).isEmpty &&
    match v1FindMatch snapN g with
    | some n => (n.completed != g.completed) && !updFail n.id
    | none => false

/-- Classifier: this Google task leads to a rejected completion update. -/
def v1UpdFailB (updFail : Nat → Bool) (snapN : List Task) (g : Task) : Bool :=
  !(jsTrim g.title).isEmpty &&
    match v1FindMatch snapN g with
    | some n => (n.completed != g.completed) && updFail n.id
    | none => false

/-- Classifier: this Google task leads to a successful Notion creation. -/
def v1CreateSuccessB (now : Int) (createFail : Task → Bool) (snapN : List Task) (g : Task) :
    Bool :=
  !(jsTrim g.title).isEmpty && (v1FindMatch snapN g).isNone &&
    !createFail (v1NotionPayload now g)

/-- Classifier: this Google task leads to a rejected Notion creation. -/
def v1CreateFailB (now : Int) (createFail : Task → Bool) (snapN : List Task) (g : Task) :
    Bool :=
  !(jsTrim g.title).isEmpty && (v1FindMatch snapN g).isNone &&
    createFail (v1NotionPayload now g)

/-- Completion copy to Notion decided for a matched pair: Google newer by
more than the buffer and flags differing. -/
def complToNotionB (buffer : Int) (g n : Task) : Bool :=
  decide (g.lastModified - n.lastModified > buffer) && (n.completed != g.completed)

/-- Completion copy to Google decided for a matched pair: Notion newer by
more than the buffer (and the Google-newer branch not taken) and flags
differing. -/
def complToGoogleB (buffer : Int) (g n : Task) : Bool :=
  !decide (g.lastModified - n.lastModified > buffer) &&
    decide (g.lastModified - n.lastModified < -buffer) && (g.completed != n.completed)

/-- Trimmed notes of the pair differ, which is what moves the updated
counter (even when the write itself is skipped). -/
def notesDifferB (g n : Task) : Bool := jsTrim n.notes != jsTrim g.notes

/-- The notes payload updateGoogleNotes would write for this pair. -/
def notesPayload (n : Task) : List Char :=
  if (jsTrim n.notes).length > 8000 then createSmartTruncation (jsTrim n.notes) 8000
  else jsTrim n.notes

/-- A notes write really lands: the trimmed notes differ and the processed
payload is nonempty. -/
def notesWriteB (g n : Task) : Bool := notesDifferB g n && !(notesPayload n).isEmpty

/-- The completion update toward Notion decided by the phase-1 iteration
of g: target id and new flag. -/
def notionOpOf (buffer : Int) (snapN : List Task) (g : Task) : Option (Nat × Bool) :=
  if jsTrim g.title = [] then none
  else
    match findMatch snapN g with
    | some n => if complToNotionB buffer g n then some (n.id, g.completed) else none
    | none => none

/-- Apply an optional completion update to a Notion store state. -/
def applyNotionOp (now : Int) (store : List Task) : Option (Nat × Bool) → List Task
  | none => store
  | some p => updateTaskById store p.1 (setCompleted now p.2)

/-- Apply the Google-side writes of the phase-1 iteration of g to a Google
store state. -/
def applyGoogleStepOf (buffer now : Int) (snapN : List Task) (g : Task) (store : List Task) :
    List Task :=
  if jsTrim g.title = [] then store
  else
    match findMatch snapN g with
    | none => store
    | some n =>
      let s1 :=
        if complToGoogleB buffer g n then
          updateTaskById store g.id (setCompleted now n.completed)
        else store
      if notesWriteB g n then updateTaskById s1 g.id (setNotes now (notesPayload n)) else s1

/-- The phase-1 iteration of g creates a Notion task. -/
def unmatchedB (snapN : List Task) (g : Task) : Bool :=
  !(jsTrim g.title).isEmpty && (findMatch snapN g).isNone

/-- The phase-1 iteration of g moves the updated counter. -/
def needsUpdateB (buffer : Int) (snapN : List Task) (g : Task) : Bool :=
  !(jsTrim g.title).isEmpty &&
    match findMatch snapN g with
    | some n => complToNotionB buffer g n || complToGoogleB buffer g n || notesDifferB g n
    | none => false

/-- Phase 1 restricted to its Notion-side completion ops. -/
def applyNotionOps (buffer now : Int) (snapN : List Task) (gs : List Task)
    (store : List Task) : List Task :=
  gs.foldl (fun store g => applyNotionOp now store (notionOpOf buffer snapN g)) store

/-- Phase 1 restricted to its Google-side writes. -/
def applyGoogleOps (buffer now : Int) (snapN : List Task) (gs : List Task)
    (store : List Task) : List Task :=
  gs.foldl (fun store g => applyGoogleStepOf buffer now snapN g store) store

/-- The iteration of g is the one that writes a completion onto the record
carrying the given id. -/
def isDriverB (buffer : Int) (snapN : List Task) (m g : Task) : Bool :=
  match notionOpOf buffer snapN g with
  | some p => m.id == p.1
  | none => false

/-- The evolution of one Notion record through a whole phase-1 run. -/
def notionPointwise (buffer now : Int) (snapN : List Task) (gs : List Task) (m : Task) :
    Task :=
  gs.foldl
    (fun m g =>
      match notionOpOf buffer snapN g with
      | some p => if m.id = p.1 then setCompleted now p.2 m else m
      | none => m)
    m

/-- The writes of the iteration of g applied to one Google record. -/
def googlePointwiseStep (buffer now : Int) (snapN : List Task) (g : Task) (t : Task) : Task :=
  if jsTrim g.title = [] then t
  else
    match findMatch snapN g with
    | none => t
    | some n =>
      let t1 := if complToGoogleB buffer g n then setCompleted now n.completed t else t
      if notesWriteB g n then setNotes now (notesPayload n) t1 else t1

/-- The evolution of one Google record through a whole phase-1 run. -/
def googlePointwise (buffer now : Int) (snapN : List Task) (gs : List Task) (t : Task) :
    Task :=
  gs.foldl
    (fun t g => if t.id = g.id then googlePointwiseStep buffer now snapN g t else t) t

/-- The record evolution of a nonempty-titled Google task through its own
phase-1 iteration, written directly. -/
def googleStep (buffer now : Int) (snapN : List Task) (g : Task) : Task :=
  googlePointwiseStep buffer now snapN g g

/-- Titles of a snapshot are unambiguous: two records with nonempty trimmed
titles that agree after normalization are the same record.  This is the
well-formedness assumption under which the title-keyed matching of the pass
is a function of the record. -/
abbrev UniqueTitles (l : List Task) : Prop :=
  ∀ a ∈ l, ∀ b ∈ l, ¬ jsTrim a.title = [] → ¬ jsTrim b.title = [] →
    normalizeTitle a.title = normalizeTitle b.title → a = b

-- ## Theorems

theorem splitOnNl_ne_nil (l : List Char) : splitOnNl l ≠ [] := by
  cases l with
  | nil => simp [splitOnNl]
  | cons c cs =>
    simp only [splitOnNl]
    cases h : splitOnNl cs with
    | nil => simp
    | cons a b => by_cases hc : c = '\n' <;> simp [hc]

theorem joinNl_cons (a : List Char) (l : List (List Char)) :
    joinNl (a :: l) = a ++ (if l.isEmpty then [] else '\n' :: joinNl l) := by
  cases l with
  | nil => simp [joinNl]
  | cons b t => simp [joinNl]

theorem joinNl_splitOnNl (l : List Char) : joinNl (splitOnNl l) = l := by
  induction l with
  | nil => simp [splitOnNl, joinNl]
  | cons c cs ih =>
    simp only [splitOnNl]
    cases h : splitOnNl cs with
    | nil => exact absurd h (splitOnNl_ne_nil cs)
    | cons a b =>
      rw [h] at ih
      by_cases hc : c = '\n'
      · subst hc
        simp only [if_true]
        rw [joinNl_cons]
        simp [ih]
      · simp only [if_neg hc]
        cases b with
        | nil =>
          simp only [joinNl] at ih ⊢
          rw [ih]
        | cons x y =>
          simp only [joinNl] at ih ⊢
          rw [List.cons_append, ih]

theorem length_joinNl_dropLast_le (ls : List (List Char)) :
    (joinNl ls.dropLast).length ≤ (joinNl ls).length := by
  induction ls with
  | nil => simp
  | cons a t ih =>
    cases t with
    | nil => simp [joinNl]
    | cons b u =>
      rw [List.dropLast_cons₂, joinNl_cons, joinNl_cons]
      have h2 : (b :: u).isEmpty = false := rfl
      rw [h2]
      simp only [Bool.false_eq_true, if_neg, not_false_iff]
      by_cases hE : ((b :: u).dropLast).isEmpty = true
      · rw [if_pos hE]
        simp [List.length_append]
      · rw [if_neg hE]
        simp only [List.length_append, List.length_cons]
        omega

theorem natDigitsAux_length_le (fuel : Nat) :
    ∀ n acc k, n < fuel → n < 10 ^ k → 1 ≤ k →
      (natDigitsAux fuel n acc).length ≤ k + acc.length := by
  induction fuel with
  | zero => intro n acc k h; exact absurd h (Nat.not_lt_zero n)
  | succ f ih =>
    intro n acc k hfuel hk hk1
    simp only [natDigitsAux]
    by_cases h10 : n < 10
    · simp only [if_pos h10, List.length_cons]
      omega
    · simp only [if_neg h10]
      obtain ⟨j, rfl⟩ : ∃ j, k = j + 1 := ⟨k - 1, by omega⟩
      by_cases hj : 1 ≤ j
      · have hdiv : n / 10 < 10 ^ j := by
          rw [Nat.div_lt_iff_lt_mul (by norm_num)]
          calc n < 10 ^ (j + 1) := hk
            _ = 10 ^ j * 10 := by ring
        have hdivf : n / 10 < f := by
          have : n / 10 < n := Nat.div_lt_self (by omega) (by omega)
          omega
        have := ih (n / 10) (Nat.digitChar (n % 10) :: acc) j hdivf hdiv hj
        simp only [List.length_cons] at this
        omega
      · have hj0 : j = 0 := by omega
        subst hj0
        rw [pow_one] at hk
        exact absurd hk h10

theorem natDigits_length_le (n k : Nat) (h : n < 10 ^ k) (hk : 1 ≤ k) :
    (natDigits n).length ≤ k := by
  have := natDigitsAux_length_le (n + 1) n [] k (by omega) h hk
  simpa [natDigits] using this

theorem truncationSuffix_length (n : Nat) :
    (truncationSuffix n).length = 51 + (natDigits n).length := by
  have h1 : ('\n' :: '\n' :: "[... ".toList).length = 7 := rfl
  have h2 : (" more characters in full Notion content ...]".toList).length = 44 := rfl
  rw [truncationSuffix, List.length_append, List.length_append, h1, h2]
  omega

/-- C9: createSmartTruncation is the identity on texts within the limit. -/
theorem truncation_identity (content : List Char) (maxLength : Nat)
    (h : content.length ≤ maxLength) :
    createSmartTruncation content maxLength = content := by
  simp [createSmartTruncation, h]

theorem truncation_identity_witness :
    "abc".toList.length ≤ 10 ∧ createSmartTruncation "abc".toList 10 = "abc".toList :=
  ⟨by decide, truncation_identity "abc".toList 10 (by decide)⟩

/-- C8: for every JavaScript-representable text and every limit of at
least 101, the truncated output fits within the limit. -/
theorem truncation_bound (content : List Char) (maxLength : Nat)
    (hmax : 101 ≤ maxLength) (hjs : content.length < 2 ^ 53) :
    (createSmartTruncation content maxLength).length ≤ maxLength := by
  by_cases hle : content.length ≤ maxLength
  · rw [truncation_identity content maxLength hle]
    exact hle
  · rw [createSmartTruncation, if_neg hle]
    simp only [List.length_append]
    set truncateAt := maxLength - 100 with hta
    set lines := splitOnNl (content.take truncateAt) with hlines
    set lines1 := if lines.length > 1 then lines.dropLast else lines with hl1
    have hkept : (joinNl lines1).length ≤ truncateAt := by
      have hjoin : (joinNl lines).length = (content.take truncateAt).length := by
        rw [hlines, joinNl_splitOnNl]
      have htake : (content.take truncateAt).length ≤ truncateAt :=
        (List.length_take truncateAt content).le.trans (Nat.min_le_left _ _)
      rw [hl1]
      by_cases hgt : lines.length > 1
      · rw [if_pos hgt]
        exact (length_joinNl_dropLast_le lines).trans (hjoin.le.trans htake)
      · rw [if_neg hgt]
        exact hjoin.le.trans htake
    have hdig : (natDigits (content.length - (joinNl lines1).length)).length ≤ 16 := by
      apply natDigits_length_le _ 16 _ (by norm_num)
      have h16 : (2 : Nat) ^ 53 < 10 ^ 16 := by norm_num
      omega
    rw [truncationSuffix_length]
    omega

theorem truncation_bound_witness :
    101 ≤ 101 ∧ (List.replicate 150 'a').length < 2 ^ 53 ∧
      (createSmartTruncation (List.replicate 150 'a') 101).length ≤ 101 :=
  ⟨by decide, by decide, truncation_bound (List.replicate 150 'a') 101 (by decide) (by decide)⟩

theorem isEmpty_eq_false_of_ne_nil {l : List Char} (h : l ≠ []) : l.isEmpty = false := by
  cases l with
  | nil => exact absurd rfl h
  | cons a t => rfl

theorem eq_nil_iff_length_eq_zero {l : List Char} : l = [] ↔ l.length = 0 :=
  ⟨fun h => by simp [h], List.eq_nil_of_length_eq_zero⟩

theorem updateGoogleNotes_noFail (n : Task) :
    updateGoogleNotes (fun _ => none) (jsTrim n.notes) =
      (if (notesPayload n).length = 0 then NotesResult.skipped
       else NotesResult.wrote (notesPayload n)) := rfl

/-- The interleaved body of one phase-1 iteration equals its decomposition
into a Notion completion op, the Google-side writes, a possible creation,
and the two counter increments. -/
theorem processGoogleTask_effect (buffer now : Int) (snapN : List Task) (st : SyncState)
    (g : Task) :
    processGoogleTask buffer now snapN st g =
      { notion := applyNotionOp now st.notion (notionOpOf buffer snapN g) ++
          (if unmatchedB snapN g then [mkNotionTask now st.fresh g] else []),
        google := applyGoogleStepOf buffer now snapN g st.google,
        created := st.created + (if unmatchedB snapN g then 1 else 0),
        updated := st.updated + (if needsUpdateB buffer snapN g then 1 else 0),
        fresh := st.fresh + (if unmatchedB snapN g then 1 else 0) } := by
  by_cases ht : jsTrim g.title = []
  · have h1 : (jsTrim g.title).isEmpty = true := by simp [ht]
    simp [processGoogleTask, notionOpOf, applyNotionOp, applyGoogleStepOf, unmatchedB,
      needsUpdateB, ht, h1]
  · have h1 : (jsTrim g.title).isEmpty = false := isEmpty_eq_false_of_ne_nil ht
    cases hm : findMatch snapN g with
    | none =>
      simp [processGoogleTask, notionOpOf, applyNotionOp, applyGoogleStepOf, unmatchedB,
        needsUpdateB, ht, h1, hm]
    | some n =>
      simp only [processGoogleTask, if_neg ht, hm]
      rw [updateGoogleNotes_noFail n]
      by_cases hA : g.lastModified - n.lastModified > buffer <;>
        by_cases hB : g.lastModified - n.lastModified < -buffer <;>
        cases hcn : n.completed <;> cases hcg : g.completed <;>
        by_cases hD : jsTrim n.notes = jsTrim g.notes <;>
        by_cases hE : (notesPayload n).length = 0 <;>
        simp [notionOpOf, applyNotionOp, applyGoogleStepOf, unmatchedB, needsUpdateB,
          complToNotionB, complToGoogleB, notesDifferB, notesWriteB, ht, h1, hm,
          hA, hB, hcn, hcg, hD, hE, List.isEmpty_iff, eq_nil_iff_length_eq_zero]

/-- A matched pair with Google newer beyond the buffer, differing flags and
equal trimmed notes: the iteration writes the flag to Notion and counts one
update. -/
theorem processGoogleTask_newerG (buffer now : Int) (N : List Task) (st : SyncState)
    (g n : Task) (ht : ¬ jsTrim g.title = []) (hm : findMatch N g = some n)
    (hd : g.lastModified - n.lastModified > buffer) (hc : n.completed ≠ g.completed)
    (hnotes : jsTrim n.notes = jsTrim g.notes) :
    processGoogleTask buffer now N st g =
      { st with notion := updateTaskById st.notion n.id (setCompleted now g.completed),
                updated := st.updated + 1 } := by
  rw [processGoogleTask_effect]
  have h1 : (jsTrim g.title).isEmpty = false := isEmpty_eq_false_of_ne_nil ht
  cases hcn : n.completed <;> cases hcg : g.completed <;>
    simp_all [notionOpOf, applyNotionOp, applyGoogleStepOf, unmatchedB, needsUpdateB,
      complToNotionB, complToGoogleB, notesDifferB, notesWriteB, hm, h1, hd, hnotes]

theorem createFold_eq (now : Int) (l : List Task) : ∀ st : SyncState,
    l.foldl (fun st n =>
        { st with google := st.google ++ [mkGoogleTask now st.fresh n],
                  created := st.created + 1, fresh := st.fresh + 1 }) st =
      { st with google := st.google ++ createdGoogleFrom now l st.fresh,
                created := st.created + l.length, fresh := st.fresh + l.length } := by
  induction l with
  | nil => intro st; simp [createdGoogleFrom]
  | cons n rest ih =>
    intro st
    rw [List.foldl_cons, ih]
    simp only [createdGoogleFrom, List.append_assoc, List.singleton_append, List.length_cons,
      SyncState.mk.injEq]
    exact ⟨trivial, trivial, by omega, trivial, by omega⟩

theorem mem_createdGoogleFrom (now : Int) (l : List Task) (n : Task) (hn : n ∈ l) :
    ∀ fr : Nat, ∃ idv, mkGoogleTask now idv n ∈ createdGoogleFrom now l fr := by
  induction l with
  | nil => cases hn
  | cons m rest ih =>
    intro fr
    rcases List.mem_cons.mp hn with h | h
    · subst h
      exact ⟨fr, by simp [createdGoogleFrom]⟩
    · obtain ⟨idv, hidv⟩ := ih h (fr + 1)
      exact ⟨idv, by simp [createdGoogleFrom]; exact Or.inr hidv⟩

/-- C2 (counterexample): the spec scenario of completion convergence, run
against the hybrid variant with its hard-coded 5000 ms buffer: B is newer
by exactly 5000 ms, so no branch fires and nothing at all is written —
A keeps completed = false and the updated counter stays at zero. -/
theorem completion_convergence_counterexample :
    performFullSync SYNC_BUFFER 20000 2
        [⟨0, "Pay rent".toList, false, none, [], 0⟩]
        [⟨1, "Pay rent".toList, true, none, [], 5000⟩] =
      { notion := [⟨0, "Pay rent".toList, false, none, [], 0⟩],
        google := [⟨1, "Pay rent".toList, true, none, [], 5000⟩],
        created := 0, updated := 0, fresh := 2 } ∧
    ∀ t ∈ (performFullSync SYNC_BUFFER 20000 2
        [⟨0, "Pay rent".toList, false, none, [], 0⟩]
        [⟨1, "Pay rent".toList, true, none, [], 5000⟩]).notion,
      t.completed = false := by decide

/-- C2 (amended): with the source's fixed 5000 ms buffer, a matched
"Pay rent" pair with equal notes where B (Google) is newer by strictly
more than 5000 ms converges: A (Notion) receives completed = true, B is
not written, and exactly one update is counted. -/
theorem completion_convergence_amended (T dlt : Int) (h : SYNC_BUFFER < dlt) :
    performFullSync SYNC_BUFFER 99999 2
        [⟨0, "Pay rent".toList, false, none, [], T⟩]
        [⟨1, "Pay rent".toList, true, none, [], T + dlt⟩] =
      { notion := [⟨0, "Pay rent".toList, true, none, [], 99999⟩],
        google := [⟨1, "Pay rent".toList, true, none, [], T + dlt⟩],
        created := 0, updated := 1, fresh := 2 } := by
  simp only [performFullSync, List.foldl_cons, List.foldl_nil]
  rw [processGoogleTask_newerG SYNC_BUFFER 99999
      [⟨0, "Pay rent".toList, false, none, [], T⟩]
      { notion := [⟨0, "Pay rent".toList, false, none, [], T⟩],
        google := [⟨1, "Pay rent".toList, true, none, [], T + dlt⟩],
        created := 0, updated := 0, fresh := 2 }
      ⟨1, "Pay rent".toList, true, none, [], T + dlt⟩
      ⟨0, "Pay rent".toList, false, none, [], T⟩
      (by show ¬ jsTrim "Pay rent".toList = []; decide) rfl
      (by show T + dlt - T > SYNC_BUFFER
          have h5 : (5000 : Int) < dlt := h
          show T + dlt - T > 5000
          omega)
      (by show (false : Bool) ≠ true; decide) rfl]
  rfl

theorem completion_convergence_amended_witness :
    SYNC_BUFFER < 5001 ∧
      performFullSync SYNC_BUFFER 99999 2
          [⟨0, "Pay rent".toList, false, none, [], 0⟩]
          [⟨1, "Pay rent".toList, true, none, [], 0 + 5001⟩] =
        { notion := [⟨0, "Pay rent".toList, true, none, [], 99999⟩],
          google := [⟨1, "Pay rent".toList, true, none, [], 0 + 5001⟩],
          created := 0, updated := 1, fresh := 2 } :=
  ⟨by decide, completion_convergence_amended 0 5001 (by decide)⟩

/-- C4 (counterexample): the engine re-checks nothing before a create.
With "Groceries" Notion-only in the pass snapshots and an out-of-band
"groceries" already in the live Google state, phase 2 still creates, and
Google ends the pass with two records of that normalized title, not one. -/
theorem duplicate_guard_counterexample :
    ((createNotionOnly 100 [⟨0, "Groceries".toList, false, none, [], 0⟩] []
        { notion := [⟨0, "Groceries".toList, false, none, [], 0⟩],
          google := [⟨5, "groceries".toList, false, none, [], 50⟩],
          created := 0, updated := 0, fresh := 9 }).google.filter
      (fun t => normalizeTitle t.title == normalizeTitle "Groceries".toList)).length = 2 := by
  decide

/-- C4 (amended): the only duplicate protection is the pass-start
snapshot: a Notion task with a normalized-title match in the Google
snapshot is excluded from the creation plan; but when an out-of-band actor
adds a same-titled record to the live Google state after the snapshot,
phase 2 still creates, leaving two records of that title. -/
theorem duplicate_guard_amended :
    (∀ (snapN snapG : List Task) (n : Task), n ∈ snapN →
        (∃ g ∈ snapG, ¬ jsTrim g.title = [] ∧
          normalizeTitle n.title = normalizeTitle g.title) →
        n ∉ notionOnlyTasks snapN snapG) ∧
    (∀ oob : Task, normalizeTitle oob.title = normalizeTitle "Groceries".toList →
      ((createNotionOnly 100 [⟨0, "Groceries".toList, false, none, [], 0⟩] []
          { notion := [⟨0, "Groceries".toList, false, none, [], 0⟩],
            google := [oob], created := 0, updated := 0, fresh := 9 }).google.filter
        (fun t => normalizeTitle t.title == normalizeTitle "Groceries".toList)).length = 2) := by
  constructor
  · rintro snapN snapG n _ ⟨g, hgmem, hgt, hkey⟩ hmem
    rw [notionOnlyTasks, List.mem_filter] at hmem
    have hpred := hmem.2
    rw [Bool.and_eq_true] at hpred
    have hnone := hpred.2
    rw [Option.isNone_iff_eq_none, List.find?_eq_none] at hnone
    refine hnone g hgmem ?_
    rw [Bool.and_eq_true]
    exact ⟨isEmpty_eq_false_of_ne_nil hgt ▸ rfl, by simp [hkey]⟩
  · intro oob hkey
    rw [createNotionOnly,
      show notionOnlyTasks [⟨0, "Groceries".toList, false, none, [], 0⟩] [] =
        [⟨0, "Groceries".toList, false, none, [], 0⟩] from rfl]
    simp only [List.foldl_cons, List.foldl_nil]
    simp [List.filter, hkey, mkGoogleTask]

theorem duplicate_guard_amended_witness :
    normalizeTitle "groceries".toList = normalizeTitle "Groceries".toList ∧
      ((createNotionOnly 100 [⟨0, "Groceries".toList, false, none, [], 0⟩] []
          { notion := [⟨0, "Groceries".toList, false, none, [], 0⟩],
            google := [⟨5, "groceries".toList, false, none, [], 50⟩],
            created := 0, updated := 0, fresh := 9 }).google.filter
        (fun t => normalizeTitle t.title == normalizeTitle "Groceries".toList)).length = 2 :=
  ⟨by decide,
    duplicate_guard_amended.2 ⟨5, "groceries".toList, false, none, [], 50⟩ (by decide)⟩

/-- C6 (counterexample): a completed Notion-only task is created on
Google, with its completed flag preserved — the create direction is not
restricted to open tasks. -/
theorem open_only_create_counterexample :
    (performFullSync SYNC_BUFFER 100 7
        [⟨0, "Old chore".toList, true, none, [], 0⟩] []).google =
      [⟨7, "Old chore".toList, true, none, [], 100⟩] ∧
    (performFullSync SYNC_BUFFER 100 7
        [⟨0, "Old chore".toList, true, none, [], 0⟩] []).created = 1 := by decide

/-- C6 (amended): phase 2 creates every Notion-only task on Google
regardless of its completed flag, and the flag is copied to the created
record. -/
theorem create_direction_includes_completed (buffer now : Int) (fresh : Nat)
    (N G : List Task) (n : Task) (hn : n ∈ notionOnlyTasks N G) :
    ∃ t ∈ (performFullSync buffer now fresh N G).google,
      t.title = n.title ∧ t.completed = n.completed := by
  simp only [performFullSync]
  rw [createNotionOnly, createFold_eq]
  obtain ⟨idv, hmem⟩ :=
    mem_createdGoogleFrom now (notionOnlyTasks N G) n hn
      (G.foldl (processGoogleTask buffer now N)
        { notion := N, google := G, created := 0, updated := 0, fresh := fresh }).fresh
  exact ⟨mkGoogleTask now idv n, List.mem_append_right _ hmem, rfl, rfl⟩

theorem create_direction_includes_completed_witness :
    (⟨0, "Old chore".toList, true, none, [], 0⟩ : Task) ∈
        notionOnlyTasks [⟨0, "Old chore".toList, true, none, [], 0⟩] [] ∧
      ∃ t ∈ (performFullSync SYNC_BUFFER 100 7
          [⟨0, "Old chore".toList, true, none, [], 0⟩] []).google,
        t.title = (⟨0, "Old chore".toList, true, none, [], 0⟩ : Task).title ∧
          t.completed = (⟨0, "Old chore".toList, true, none, [], 0⟩ : Task).completed :=
  ⟨by decide,
    create_direction_includes_completed SYNC_BUFFER 100 7
      [⟨0, "Old chore".toList, true, none, [], 0⟩] []
      ⟨0, "Old chore".toList, true, none, [], 0⟩ (by decide)⟩

/-- C10: when the first notes write is rejected, the hybrid variant makes
exactly one further attempt with the content truncated to at most 4000
characters; a successful retry reports the silently reduced write, and
only a failed retry propagates the first error. -/
theorem updateGoogleNotes_emergency (fail : List Char → Option Nat) (notes : List Char)
    (e : Nat) (hjs : notes.length < 2 ^ 53)
    (hne : ((if notes.length > 8000 then createSmartTruncation notes 8000 else notes)).length ≠ 0)
    (hfail : fail (if notes.length > 8000 then createSmartTruncation notes 8000 else notes) =
      some e) :
    (createSmartTruncation notes 4000).length ≤ 4000 ∧
    (fail (createSmartTruncation notes 4000) = none →
      updateGoogleNotes fail notes = NotesResult.wrote (createSmartTruncation notes 4000)) ∧
    (∀ e2, fail (createSmartTruncation notes 4000) = some e2 →
      updateGoogleNotes fail notes = NotesResult.failed e) := by
  refine ⟨?_, ?_, ?_⟩
  · by_cases h : notes.length ≤ 4000
    · rw [truncation_identity _ _ h]; exact h
    · exact truncation_bound notes 4000 (by norm_num) hjs
  · intro hok
    simp only [updateGoogleNotes]
    rw [if_neg hne, hfail, hok]
  · intro e2 h2
    simp only [updateGoogleNotes]
    rw [if_neg hne, hfail, h2]

theorem updateGoogleNotes_emergency_witness :
    ("hello".toList.length < 2 ^ 53) ∧
      updateGoogleNotes (fun l => if l = "hello".toList then some 7 else none) "hello".toList =
        NotesResult.failed 7 :=
  ⟨by decide,
    (updateGoogleNotes_emergency (fun l => if l = "hello".toList then some 7 else none)
        "hello".toList 7 (by decide) (by decide) (by decide)).2.2 7 (by decide)⟩

/-- C5 (counterexample): phase 2 of the hybrid variant has no
per-operation guard: when the creation of "alpha" is rejected, the loop
aborts with nothing created — the creation of "beta", which would have
succeeded, is never attempted. -/
theorem per_operation_isolation_counterexample :
    createNotionOnlyE 100 (fun t => t.title == "alpha".toList)
        [⟨0, "alpha".toList, false, none, [], 0⟩, ⟨1, "beta".toList, false, none, [], 0⟩] []
        { notion := [⟨0, "alpha".toList, false, none, [], 0⟩,
                     ⟨1, "beta".toList, false, none, [], 0⟩],
          google := [], created := 0, updated := 0, fresh := 2 } =
      ({ notion := [⟨0, "alpha".toList, false, none, [], 0⟩,
                    ⟨1, "beta".toList, false, none, [], 0⟩],
         google := [], created := 0, updated := 0, fresh := 2 }, true) ∧
    (createNotionOnlyE 100 (fun _ => false)
        [⟨0, "alpha".toList, false, none, [], 0⟩, ⟨1, "beta".toList, false, none, [], 0⟩] []
        { notion := [⟨0, "alpha".toList, false, none, [], 0⟩,
                     ⟨1, "beta".toList, false, none, [], 0⟩],
          google := [], created := 0, updated := 0, fresh := 2 }).1.created = 2 := by decide

theorem v1ProcessGoogleTask_counters (now : Int) (updFail : Nat → Bool)
    (createFail : Task → Bool) (snapN : List Task) (st : V1State) (g : Task) :
    (v1ProcessGoogleTask now updFail createFail snapN st g).updated =
        st.updated + (if v1UpdSuccessB updFail snapN g then 1 else 0) ∧
    (v1ProcessGoogleTask now updFail createFail snapN st g).created =
        st.created + (if v1CreateSuccessB now createFail snapN g then 1 else 0) ∧
    (v1ProcessGoogleTask now updFail createFail snapN st g).errors =
        st.errors + (if v1UpdFailB updFail snapN g then 1 else 0) +
          (if v1CreateFailB now createFail snapN g then 1 else 0) := by
  by_cases ht : jsTrim g.title = []
  · have h1 : (jsTrim g.title).isEmpty = true := by simp [ht]
    simp [v1ProcessGoogleTask, v1UpdSuccessB, v1UpdFailB, v1CreateSuccessB, v1CreateFailB,
      ht, h1]
  · have h1 : (jsTrim g.title).isEmpty = false := isEmpty_eq_false_of_ne_nil ht
    cases hm : v1FindMatch snapN g with
    | none =>
      by_cases hcf : createFail (v1NotionPayload now g) <;>
        simp [v1ProcessGoogleTask, v1UpdSuccessB, v1UpdFailB, v1CreateSuccessB, v1CreateFailB,
          ht, h1, hm, hcf]
    | some n =>
      cases hcn : n.completed <;> cases hcg : g.completed <;>
        by_cases huf : updFail n.id <;>
        simp [v1ProcessGoogleTask, v1UpdSuccessB, v1UpdFailB, v1CreateSuccessB, v1CreateFailB,
          ht, h1, hm, hcn, hcg, huf]

theorem v1_phase1_counts (now : Int) (updFail : Nat → Bool) (createFail : Task → Bool)
    (snapN : List Task) (gs : List Task) : ∀ st : V1State,
    ((gs.foldl (v1ProcessGoogleTask now updFail createFail snapN) st).updated =
        st.updated + gs.countP (fun g => v1UpdSuccessB updFail snapN g)) ∧
    ((gs.foldl (v1ProcessGoogleTask now updFail createFail snapN) st).created =
        st.created + gs.countP (fun g => v1CreateSuccessB now createFail snapN g)) ∧
    ((gs.foldl (v1ProcessGoogleTask now updFail createFail snapN) st).errors =
        st.errors + gs.countP (fun g => v1UpdFailB updFail snapN g) +
          gs.countP (fun g => v1CreateFailB now createFail snapN g)) := by
  induction gs with
  | nil => intro st; simp
  | cons g rest ih =>
    intro st
    rw [List.foldl_cons]
    obtain ⟨i1, i2, i3⟩ := ih (v1ProcessGoogleTask now updFail createFail snapN st g)
    obtain ⟨s1, s2, s3⟩ := v1ProcessGoogleTask_counters now updFail createFail snapN st g
    refine ⟨?_, ?_, ?_⟩
    · rw [i1, s1, List.countP_cons]
      by_cases h : v1UpdSuccessB updFail snapN g <;> simp [h] <;> omega
    · rw [i2, s2, List.countP_cons]
      by_cases h : v1CreateSuccessB now createFail snapN g <;> simp [h] <;> omega
    · rw [i3, s3, List.countP_cons, List.countP_cons]
      by_cases h4 : v1UpdFailB updFail snapN g <;>
        by_cases h5 : v1CreateFailB now createFail snapN g <;> simp [h4, h5] <;> omega

theorem v1CreateLoop_counts (now : Int) (createGFail : Task → Bool) (l : List Task) :
    ∀ st : V1State,
    ((v1CreateLoop now createGFail l st).created =
        st.created + l.countP (fun n => !createGFail (v1GooglePayload now n))) ∧
    ((v1CreateLoop now createGFail l st).updated = st.updated) ∧
    ((v1CreateLoop now createGFail l st).errors =
        st.errors + l.countP (fun n => createGFail (v1GooglePayload now n))) := by
  induction l with
  | nil => intro st; simp [v1CreateLoop]
  | cons n rest ih =>
    intro st
    simp only [v1CreateLoop, List.foldl_cons] at ih ⊢
    by_cases h : createGFail (v1GooglePayload now n)
    · obtain ⟨i1, i2, i3⟩ := ih { st with errors := st.errors + 1 }
      simp only [if_pos h]
      rw [i1, i2, i3, List.countP_cons, List.countP_cons]
      simp [h]
      omega
    · obtain ⟨i1, i2, i3⟩ := ih
        { st with google := st.google ++ [v1GooglePayload now n], created := st.created + 1 }
      simp only [if_neg h]
      rw [i1, i2, i3, List.countP_cons, List.countP_cons]
      simp [h]
      omega

/-- C5 (amended): in the Google-master variant every apply call is
individually wrapped: the pass walks every snapshot element, each
successful update or create moves its counter exactly once, and each
rejected call moves only the error counter — whatever fails, the loop
continues.  (In the hybrid variant this fails: see the counterexample.) -/
theorem v1_per_operation_isolation (now : Int) (updFail : Nat → Bool)
    (createNFail createGFail : Task → Bool) (N G : List Task) :
    (v1PerformFullSync now updFail createNFail createGFail N G).updated =
        G.countP (fun g => v1UpdSuccessB updFail N g) ∧
    (v1PerformFullSync now updFail createNFail createGFail N G).created =
        G.countP (fun g => v1CreateSuccessB now createNFail N g) +
          (v1NotionOnlyTasks N G).countP (fun n => !createGFail (v1GooglePayload now n)) ∧
    (v1PerformFullSync now updFail createNFail createGFail N G).errors =
        G.countP (fun g => v1UpdFailB updFail N g) +
          G.countP (fun g => v1CreateFailB now createNFail N g) +
          (v1NotionOnlyTasks N G).countP (fun n => createGFail (v1GooglePayload now n)) := by
  obtain ⟨p1, p2, p3⟩ :=
    v1_phase1_counts now updFail createNFail N G
      { notion := N, google := G, created := 0, updated := 0, errors := 0 }
  obtain ⟨c1, c2, c3⟩ :=
    v1CreateLoop_counts now createGFail (v1NotionOnlyTasks N G)
      (G.foldl (v1ProcessGoogleTask now updFail createNFail N)
        { notion := N, google := G, created := 0, updated := 0, errors := 0 })
  simp only [v1PerformFullSync]
  refine ⟨?_, ?_, ?_⟩
  · rw [c2, p1]; simp
  · rw [c1, p2]; simp
  · rw [c3, p3]; simp

theorem splitOnNl_of_no_newline (l : List Char) (h : ∀ c ∈ l, c ≠ '\n') :
    splitOnNl l = [l] := by
  induction l with
  | nil => rfl
  | cons c cs ih =>
    have hc : c ≠ '\n' := h c (List.mem_cons_self c cs)
    have ih2 := ih (fun x hx => h x (List.mem_cons_of_mem c hx))
    simp only [splitOnNl, ih2]
    rw [if_neg hc]

theorem createSmartTruncation_eq (content : List Char) (maxLength : Nat)
    (hlen : ¬ content.length ≤ maxLength) :
    createSmartTruncation content maxLength =
      joinNl (if (splitOnNl (content.take (maxLength - 100))).length > 1
          then (splitOnNl (content.take (maxLength - 100))).dropLast
          else splitOnNl (content.take (maxLength - 100))) ++
        truncationSuffix (content.length -
          (joinNl (if (splitOnNl (content.take (maxLength - 100))).length > 1
            then (splitOnNl (content.take (maxLength - 100))).dropLast
            else splitOnNl (content.take (maxLength - 100)))).length) := by
  rw [createSmartTruncation, if_neg hlen]

theorem take_replicate_of_le {n m : Nat} (h : n ≤ m) (a : Char) :
    (List.replicate m a).take n = List.replicate n a := by
  induction n generalizing m with
  | zero => rfl
  | succ k ih =>
    cases m with
    | zero => omega
    | succ m2 =>
      rw [List.replicate_succ, List.take_succ_cons, List.replicate_succ, ih (by omega)]

theorem trunc_replicate_8500 :
    createSmartTruncation (List.replicate 8500 'a') 8000 =
      List.replicate 7900 'a' ++ truncationSuffix 600 := by
  have h1 : ¬ (List.replicate 8500 'a').length ≤ 8000 := by
    rw [List.length_replicate]; omega
  rw [createSmartTruncation_eq _ _ h1]
  rw [show (8000 : Nat) - 100 = 7900 from rfl]
  rw [take_replicate_of_le (by omega) 'a']
  rw [splitOnNl_of_no_newline (List.replicate 7900 'a') (fun c hc => by
    rw [List.eq_of_mem_replicate hc]; decide)]
  rw [show ([List.replicate 7900 'a'] : List (List Char)).length = 1 from rfl]
  rw [if_neg (by omega : ¬ (1 : Nat) > 1)]
  rw [show joinNl [List.replicate 7900 'a'] = List.replicate 7900 'a' from rfl]
  rw [List.length_replicate, List.length_replicate,
    show (8500 : Nat) - 7900 = 600 from by norm_num]

/-- C7 (counterexample): the output of an oversized truncation never ends
with the suffix wording of the spec claim ("full content"): the source
writes "full Notion content". -/
theorem suffix_wording_counterexample :
    ¬ ∃ kept : List Char,
        createSmartTruncation (List.replicate 150 'a') 101 =
          kept ++ specClaimSuffix (150 - kept.length) := by
  rintro ⟨kept, hk⟩
  have h1 : (" more characters in full content ...]".toList) <:+
      createSmartTruncation (List.replicate 150 'a') 101 := by
    rw [hk]
    have h2 : (" more characters in full content ...]".toList) <:+
        specClaimSuffix (150 - kept.length) :=
      ⟨('\n' :: '\n' :: "[... ".toList) ++ natDigits (150 - kept.length), by
        simp [specClaimSuffix, List.append_assoc]⟩
    exact h2.trans (List.suffix_append kept _)
  obtain ⟨t, ht⟩ := h1
  have h37 : (" more characters in full content ...]".toList).length = 37 := rfl
  have hlen : t.length + 37 = (createSmartTruncation (List.replicate 150 'a') 101).length := by
    have h3 := congrArg List.length ht
    rw [List.length_append, h37] at h3
    exact h3
  have hout : (createSmartTruncation (List.replicate 150 'a') 101).length = 55 := by decide
  have ht18 : t.length = 18 := by omega
  have hdrop : (createSmartTruncation (List.replicate 150 'a') 101).drop 18 =
      (" more characters in full content ...]".toList) := by
    rw [← ht, ← ht18]
    exact List.drop_left t _
  exact absurd hdrop (by decide)

/-- C7 (amended): for every oversized text, the output is the kept prefix
followed by the source's literal suffix ("full Notion content") counting
exactly originalLength minus keptLength; at the claim's 8500 / 8000
instance the suffix states 600 = 8500 - 7900 and kept plus suffix fit in
8000. -/
theorem truncation_suffix_accuracy (content : List Char) (maxLength : Nat)
    (h : maxLength < content.length) :
    (∃ kept : List Char,
        createSmartTruncation content maxLength =
          kept ++ truncationSuffix (content.length - kept.length)) ∧
    createSmartTruncation (List.replicate 8500 'a') 8000 =
        List.replicate 7900 'a' ++ truncationSuffix 600 ∧
    600 = 8500 - (List.replicate 7900 'a').length ∧
    (List.replicate 7900 'a').length + (truncationSuffix 600).length ≤ 8000 := by
  refine ⟨?_, trunc_replicate_8500, by rw [List.length_replicate], ?_⟩
  · refine ⟨joinNl (if (splitOnNl (content.take (maxLength - 100))).length > 1
        then (splitOnNl (content.take (maxLength - 100))).dropLast
        else splitOnNl (content.take (maxLength - 100))), ?_⟩
    rw [createSmartTruncation_eq _ _ (by omega)]
  · rw [truncationSuffix_length, show (natDigits 600).length = 3 from by decide,
      List.length_replicate]
    omega

theorem dropWhile_dropWhile (p : Char → Bool) (l : List Char) :
    (l.dropWhile p).dropWhile p = l.dropWhile p := by
  induction l with
  | nil => rfl
  | cons c cs ih =>
    by_cases h : p c
    · rw [List.dropWhile_cons, if_pos h]
      exact ih
    · rw [List.dropWhile_cons, if_neg h, List.dropWhile_cons, if_neg h]

theorem dropTrailingWs_idem (l : List Char) :
    dropTrailingWs (dropTrailingWs l) = dropTrailingWs l := by
  induction l with
  | nil => rfl
  | cons c cs ih =>
    rw [dropTrailingWs]
    by_cases h : (dropTrailingWs cs).isEmpty && isWs c
    · rw [if_pos h]; rfl
    · rw [if_neg h, dropTrailingWs, ih, if_neg h]

theorem dropWhile_dropTrailingWs (l : List Char) (hl : l.dropWhile isWs = l) :
    (dropTrailingWs l).dropWhile isWs = dropTrailingWs l := by
  cases l with
  | nil => rfl
  | cons c cs =>
    have hc : isWs c = false := by
      by_cases h : isWs c
      · exfalso
        rw [List.dropWhile_cons, if_pos h] at hl
        have h1 : (cs.dropWhile isWs).length ≤ cs.length :=
          (List.dropWhile_sublist isWs).length_le
        have h2 := congrArg List.length hl
        simp only [List.length_cons] at h2
        omega
      · exact Bool.eq_false_iff.mpr h
    rw [dropTrailingWs]
    by_cases h : (dropTrailingWs cs).isEmpty && isWs c
    · rw [if_pos h]; rfl
    · rw [if_neg h, List.dropWhile_cons, if_neg (by simp [hc])]

theorem jsTrim_idem (l : List Char) : jsTrim (jsTrim l) = jsTrim l := by
  show dropTrailingWs ((dropTrailingWs (l.dropWhile isWs)).dropWhile isWs) = _
  rw [dropWhile_dropTrailingWs _ (dropWhile_dropWhile isWs l), dropTrailingWs_idem]
  rfl

theorem find?_congr {p q : Task → Bool} : ∀ {l : List Task},
    (∀ a ∈ l, p a = q a) → l.find? p = l.find? q := by
  intro l
  induction l with
  | nil => intro _; rfl
  | cons a t ih =>
    intro h
    rw [List.find?_cons, List.find?_cons, h a (List.mem_cons_self a t)]
    by_cases hq : q a
    · rw [hq]
    · rw [Bool.eq_false_iff.mpr hq]
      exact ih (fun b hb => h b (List.mem_cons_of_mem a hb))

theorem find?_eq_some_of_unique {p : Task → Bool} {l : List Task} {n : Task}
    (hmem : n ∈ l) (hp : p n = true) (huniq : ∀ a ∈ l, p a = true → a = n) :
    l.find? p = some n := by
  induction l with
  | nil => cases hmem
  | cons a t ih =>
    rw [List.find?_cons]
    by_cases ha : p a
    · rw [ha]
      rw [huniq a (List.mem_cons_self a t) ha]
    · rw [Bool.eq_false_iff.mpr ha]
      rcases List.mem_cons.mp hmem with h | h
      · exact absurd (h ▸ hp) ha
      · exact ih h (fun b hb hpb => huniq b (List.mem_cons_of_mem a hb) hpb)

theorem eq_of_mem_pairwise_id {l : List Task}
    (h : l.Pairwise (fun a b => a.id ≠ b.id)) :
    ∀ a ∈ l, ∀ b ∈ l, a.id = b.id → a = b := by
  induction l with
  | nil => intro a ha; cases ha
  | cons x t ih =>
    intro a ha b hb hab
    rcases List.mem_cons.mp ha with rfl | ha2 <;> rcases List.mem_cons.mp hb with rfl | hb2
    · rfl
    · exact absurd hab ((List.pairwise_cons.mp h).1 b hb2)
    · exact absurd hab.symm ((List.pairwise_cons.mp h).1 a ha2)
    · exact ih (List.pairwise_cons.mp h).2 a ha2 b hb2 hab

theorem updateTaskById_append (l1 l2 : List Task) (tid : Nat) (f : Task → Task) :
    updateTaskById (l1 ++ l2) tid f = updateTaskById l1 tid f ++ updateTaskById l2 tid f := by
  simp [updateTaskById]

theorem updateTaskById_of_forall_ne (l : List Task) (tid : Nat) (f : Task → Task)
    (h : ∀ t ∈ l, t.id ≠ tid) :
    updateTaskById l tid f = l := by
  induction l with
  | nil => rfl
  | cons a t ih =>
    simp only [updateTaskById, List.map_cons]
    rw [if_neg (h a (List.mem_cons_self a t))]
    have ht := ih (fun b hb => h b (List.mem_cons_of_mem a hb))
    simp only [updateTaskById] at ht
    rw [ht]

theorem notionOpOf_target (buffer : Int) (snapN : List Task) (g : Task) (p : Nat × Bool)
    (h : notionOpOf buffer snapN g = some p) :
    ∃ n ∈ snapN, n.id = p.1 := by
  rw [notionOpOf] at h
  by_cases ht : jsTrim g.title = []
  · rw [if_pos ht] at h; cases h
  · rw [if_neg ht] at h
    cases hm : findMatch snapN g with
    | none =>
      simp only [hm] at h
      exact Option.noConfusion h
    | some n =>
      simp only [hm] at h
      by_cases hc : complToNotionB buffer g n
      · rw [if_pos hc] at h
        obtain rfl := Option.some.inj h
        exact ⟨n, List.mem_of_find?_eq_some hm, rfl⟩
      · rw [if_neg hc] at h; cases h

theorem applyNotionOp_append_high (now : Int) (store extra : List Task)
    (op : Option (Nat × Bool)) (h : ∀ p, op = some p → ∀ t ∈ extra, t.id ≠ p.1) :
    applyNotionOp now (store ++ extra) op = applyNotionOp now store op ++ extra := by
  cases op with
  | none => rfl
  | some p =>
    show updateTaskById (store ++ extra) p.1 _ = updateTaskById store p.1 _ ++ extra
    rw [updateTaskById_append, updateTaskById_of_forall_ne extra p.1 _ (h p rfl)]

theorem applyNotionOps_append_high (buffer now : Int) (snapN : List Task) (gs : List Task) :
    ∀ store extra : List Task, (∀ t ∈ extra, ∀ n ∈ snapN, n.id ≠ t.id) →
    applyNotionOps buffer now snapN gs (store ++ extra) =
      applyNotionOps buffer now snapN gs store ++ extra := by
  induction gs with
  | nil => intro store extra _; rfl
  | cons g rest ih =>
    intro store extra hext
    simp only [applyNotionOps, List.foldl_cons]
    rw [applyNotionOp_append_high now store extra _ (fun p hp t ht => by
      obtain ⟨n, hn, hnid⟩ := notionOpOf_target buffer snapN g p hp
      intro hteq
      exact hext t ht n hn (by rw [hnid, hteq]))]
    have := ih (applyNotionOp now store (notionOpOf buffer snapN g)) extra hext
    simpa [applyNotionOps] using this

theorem createdNotionFrom_cons (now : Int) (snapN : List Task) (g : Task) (rest : List Task)
    (fr : Nat) :
    createdNotionFrom now snapN (g :: rest) fr =
      (if unmatchedB snapN g then
        mkNotionTask now fr g :: createdNotionFrom now snapN rest (fr + 1)
      else createdNotionFrom now snapN rest fr) := by
  by_cases ht : jsTrim g.title = []
  · have h1 : (jsTrim g.title).isEmpty = true := by simp [ht]
    simp [createdNotionFrom, unmatchedB, ht, h1]
  · have h1 : (jsTrim g.title).isEmpty = false := isEmpty_eq_false_of_ne_nil ht
    cases hm : findMatch snapN g with
    | none => simp [createdNotionFrom, unmatchedB, ht, h1, hm]
    | some n => simp [createdNotionFrom, unmatchedB, ht, h1, hm]

theorem phase1_decomposition (buffer now : Int) (snapN : List Task) (gs : List Task) :
    ∀ st : SyncState, (∀ n ∈ snapN, n.id < st.fresh) →
      gs.foldl (processGoogleTask buffer now snapN) st =
        { notion := applyNotionOps buffer now snapN gs st.notion ++
            createdNotionFrom now snapN gs st.fresh,
          google := applyGoogleOps buffer now snapN gs st.google,
          created := st.created + gs.countP (fun g => unmatchedB snapN g),
          updated := st.updated + gs.countP (fun g => needsUpdateB buffer snapN g),
          fresh := st.fresh + gs.countP (fun g => unmatchedB snapN g) } := by
  induction gs with
  | nil =>
    intro st _
    simp only [List.foldl_nil, applyNotionOps, applyGoogleOps, createdNotionFrom,
      List.countP_nil, Nat.add_zero, List.foldl_nil, List.append_nil]
  | cons g rest ih =>
    intro st hfr
    rw [List.foldl_cons, processGoogleTask_effect]
    have hfr2 : ∀ n ∈ snapN, n.id <
        (st.fresh + (if unmatchedB snapN g then 1 else 0)) := fun n hn =>
      lt_of_lt_of_le (hfr n hn) (Nat.le_add_right _ _)
    rw [ih _ hfr2]
    have hext : ∀ t ∈ (if unmatchedB snapN g then [mkNotionTask now st.fresh g] else []),
        ∀ n ∈ snapN, n.id ≠ t.id := by
      intro t htm n hn
      by_cases hu : unmatchedB snapN g
      · rw [if_pos hu, List.mem_singleton] at htm
        subst htm
        exact Nat.ne_of_lt (hfr n hn)
      · rw [if_neg hu] at htm; cases htm
    simp only [SyncState.mk.injEq]
    refine ⟨?_, ?_, ?_, ?_, ?_⟩
    · rw [applyNotionOps_append_high buffer now snapN rest _ _ hext,
        createdNotionFrom_cons]
      by_cases hu : unmatchedB snapN g
      · simp [hu, applyNotionOps, List.foldl_cons, List.append_assoc]
      · have hu2 : unmatchedB snapN g = false := Bool.eq_false_iff.mpr hu
        simp [hu2, applyNotionOps, List.foldl_cons]
    · simp only [applyGoogleOps, List.foldl_cons]
    · rw [List.countP_cons]
      by_cases hu : unmatchedB snapN g <;> simp [hu] <;> omega
    · rw [List.countP_cons]
      by_cases hu : needsUpdateB buffer snapN g <;> simp [hu] <;> omega
    · rw [List.countP_cons]
      by_cases hu : unmatchedB snapN g <;> simp [hu] <;> omega

theorem setCompleted_id (now : Int) (b : Bool) (t : Task) : (setCompleted now b t).id = t.id :=
  rfl

theorem setCompleted_title (now : Int) (b : Bool) (t : Task) :
    (setCompleted now b t).title = t.title := rfl

theorem setNotes_id (now : Int) (c : List Char) (t : Task) : (setNotes now c t).id = t.id := rfl

theorem setNotes_title (now : Int) (c : List Char) (t : Task) :
    (setNotes now c t).title = t.title := rfl

theorem googlePointwiseStep_id (buffer now : Int) (snapN : List Task) (g t : Task) :
    (googlePointwiseStep buffer now snapN g t).id = t.id := by
  by_cases ht : jsTrim g.title = []
  · simp [googlePointwiseStep, ht]
  · cases hm : findMatch snapN g with
    | none => simp [googlePointwiseStep, ht, hm]
    | some n =>
      by_cases hcg : complToGoogleB buffer g n <;> by_cases hnw : notesWriteB g n <;>
        simp [googlePointwiseStep, ht, hm, hcg, hnw, setCompleted, setNotes]

theorem googlePointwiseStep_title (buffer now : Int) (snapN : List Task) (g t : Task) :
    (googlePointwiseStep buffer now snapN g t).title = t.title := by
  by_cases ht : jsTrim g.title = []
  · simp [googlePointwiseStep, ht]
  · cases hm : findMatch snapN g with
    | none => simp [googlePointwiseStep, ht, hm]
    | some n =>
      by_cases hcg : complToGoogleB buffer g n <;> by_cases hnw : notesWriteB g n <;>
        simp [googlePointwiseStep, ht, hm, hcg, hnw, setCompleted, setNotes]

theorem notionPointwise_id (buffer now : Int) (snapN : List Task) :
    ∀ (gs : List Task) (m : Task),
    (notionPointwise buffer now snapN gs m).id = m.id := by
  intro gs
  induction gs with
  | nil => intro m; rfl
  | cons g rest ih =>
    intro m
    simp only [notionPointwise, List.foldl_cons]
    cases hop : notionOpOf buffer snapN g with
    | none =>
      simp only [hop]
      exact ih m
    | some p =>
      simp only [hop]
      by_cases hid : m.id = p.1
      · rw [if_pos hid]
        rw [show List.foldl _ (setCompleted now p.2 m) rest =
          notionPointwise buffer now snapN rest (setCompleted now p.2 m) from rfl]
        rw [ih (setCompleted now p.2 m)]
        rfl
      · rw [if_neg hid]
        exact ih m

theorem notionPointwise_title (buffer now : Int) (snapN : List Task) :
    ∀ (gs : List Task) (m : Task),
    (notionPointwise buffer now snapN gs m).title = m.title := by
  intro gs
  induction gs with
  | nil => intro m; rfl
  | cons g rest ih =>
    intro m
    simp only [notionPointwise, List.foldl_cons]
    cases hop : notionOpOf buffer snapN g with
    | none =>
      simp only [hop]
      exact ih m
    | some p =>
      simp only [hop]
      by_cases hid : m.id = p.1
      · rw [if_pos hid]
        rw [show List.foldl _ (setCompleted now p.2 m) rest =
          notionPointwise buffer now snapN rest (setCompleted now p.2 m) from rfl]
        rw [ih (setCompleted now p.2 m)]
        rfl
      · rw [if_neg hid]
        exact ih m

theorem notionPointwise_notes (buffer now : Int) (snapN : List Task) :
    ∀ (gs : List Task) (m : Task),
    (notionPointwise buffer now snapN gs m).notes = m.notes := by
  intro gs
  induction gs with
  | nil => intro m; rfl
  | cons g rest ih =>
    intro m
    simp only [notionPointwise, List.foldl_cons]
    cases hop : notionOpOf buffer snapN g with
    | none =>
      simp only [hop]
      exact ih m
    | some p =>
      simp only [hop]
      by_cases hid : m.id = p.1
      · rw [if_pos hid]
        rw [show List.foldl _ (setCompleted now p.2 m) rest =
          notionPointwise buffer now snapN rest (setCompleted now p.2 m) from rfl]
        rw [ih (setCompleted now p.2 m)]
        rfl
      · rw [if_neg hid]
        exact ih m

theorem applyNotionOps_eq_map (buffer now : Int) (snapN : List Task) (gs : List Task) :
    ∀ store : List Task,
    applyNotionOps buffer now snapN gs store =
      store.map (notionPointwise buffer now snapN gs) := by
  induction gs with
  | nil =>
    intro store
    simp only [applyNotionOps, List.foldl_nil, notionPointwise]
    exact (List.map_id' store).symm
  | cons g rest ih =>
    intro store
    simp only [applyNotionOps, List.foldl_cons]
    rw [show List.foldl (fun store g => applyNotionOp now store (notionOpOf buffer snapN g))
        (applyNotionOp now store (notionOpOf buffer snapN g)) rest =
      applyNotionOps buffer now snapN rest
        (applyNotionOp now store (notionOpOf buffer snapN g)) from rfl]
    rw [ih]
    cases hop : notionOpOf buffer snapN g with
    | none =>
      simp only [applyNotionOp]
      refine List.map_congr_left fun t _ => ?_
      simp only [notionPointwise, List.foldl_cons, hop]
    | some p =>
      simp only [applyNotionOp, updateTaskById, List.map_map]
      refine List.map_congr_left fun t _ => ?_
      simp only [Function.comp_apply, notionPointwise, List.foldl_cons, hop]

theorem applyGoogleStepOf_eq_map (buffer now : Int) (snapN : List Task) (g : Task)
    (store : List Task) :
    applyGoogleStepOf buffer now snapN g store =
      store.map (fun t =>
        if t.id = g.id then googlePointwiseStep buffer now snapN g t else t) := by
  by_cases ht : jsTrim g.title = []
  · rw [applyGoogleStepOf, if_pos ht]
    symm
    refine (List.map_congr_left fun t _ => ?_).trans (List.map_id' store)
    by_cases hid : t.id = g.id <;> simp [hid, googlePointwiseStep, ht]
  · rw [applyGoogleStepOf, if_neg ht]
    cases hm : findMatch snapN g with
    | none =>
      simp only [hm]
      symm
      refine (List.map_congr_left fun t _ => ?_).trans (List.map_id' store)
      by_cases hid : t.id = g.id <;> simp [hid, googlePointwiseStep, ht, hm]
    | some n =>
      simp only [hm]
      by_cases hcg : complToGoogleB buffer g n <;> by_cases hnw : notesWriteB g n
      · rw [if_pos hcg, if_pos hnw]
        rw [show updateTaskById (updateTaskById store g.id (setCompleted now n.completed))
            g.id (setNotes now (notesPayload n)) =
          (store.map (fun t => if t.id = g.id then setCompleted now n.completed t else t)).map
            (fun t => if t.id = g.id then setNotes now (notesPayload n) t else t) from rfl]
        rw [List.map_map]
        refine List.map_congr_left fun t _ => ?_
        by_cases hid : t.id = g.id <;>
          simp [hid, googlePointwiseStep, ht, hm, hcg, hnw, setCompleted, setNotes]
      · rw [if_pos hcg, if_neg hnw]
        refine List.map_congr_left fun t _ => ?_
        by_cases hid : t.id = g.id <;>
          simp [hid, googlePointwiseStep, ht, hm, hcg, hnw]
      · rw [if_neg hcg, if_pos hnw]
        refine List.map_congr_left fun t _ => ?_
        by_cases hid : t.id = g.id <;>
          simp [hid, googlePointwiseStep, ht, hm, hcg, hnw]
      · rw [if_neg hcg, if_neg hnw]
        symm
        refine (List.map_congr_left fun t _ => ?_).trans (List.map_id' store)
        by_cases hid : t.id = g.id <;> simp [hid, googlePointwiseStep, ht, hm, hcg, hnw]

theorem applyGoogleOps_eq_map (buffer now : Int) (snapN : List Task) (gs : List Task) :
    ∀ store : List Task,
    applyGoogleOps buffer now snapN gs store =
      store.map (googlePointwise buffer now snapN gs) := by
  induction gs with
  | nil =>
    intro store
    simp only [applyGoogleOps, List.foldl_nil, googlePointwise]
    exact (List.map_id' store).symm
  | cons g rest ih =>
    intro store
    simp only [applyGoogleOps, List.foldl_cons]
    rw [show List.foldl (fun store g => applyGoogleStepOf buffer now snapN g store)
        (applyGoogleStepOf buffer now snapN g store) rest =
      applyGoogleOps buffer now snapN rest
        (applyGoogleStepOf buffer now snapN g store) from rfl]
    rw [ih, applyGoogleStepOf_eq_map, List.map_map]
    refine List.map_congr_left fun t _ => ?_
    simp only [Function.comp_apply, googlePointwise, List.foldl_cons]

theorem notionPointwise_no_driver (buffer now : Int) (snapN : List Task) :
    ∀ (gs : List Task) (m : Task),
    (∀ g2 ∈ gs, isDriverB buffer snapN m g2 = false) →
    notionPointwise buffer now snapN gs m = m := by
  intro gs
  induction gs with
  | nil => intro m _; rfl
  | cons g rest ih =>
    intro m h
    have hg := h g (List.mem_cons_self g rest)
    simp only [notionPointwise, List.foldl_cons]
    cases hop : notionOpOf buffer snapN g with
    | none =>
      simp only [hop]
      exact ih m (fun g2 hg2 => h g2 (List.mem_cons_of_mem _ hg2))
    | some p =>
      simp only [hop]
      simp only [isDriverB, hop] at hg
      rw [if_neg (ne_of_beq_false hg)]
      exact ih m (fun g2 hg2 => h g2 (List.mem_cons_of_mem _ hg2))

theorem notionPointwise_fixed (buffer now : Int) (snapN : List Task) (p : Nat × Bool) :
    ∀ (gs : List Task) (m : Task),
    (∀ g2 ∈ gs, isDriverB buffer snapN m g2 = true → notionOpOf buffer snapN g2 = some p) →
    setCompleted now p.2 m = m →
    notionPointwise buffer now snapN gs m = m := by
  intro gs
  induction gs with
  | nil => intro m _ _; rfl
  | cons g rest ih =>
    intro m h hfix
    simp only [notionPointwise, List.foldl_cons]
    cases hop : notionOpOf buffer snapN g with
    | none =>
      simp only [hop]
      exact ih m (fun g2 hg2 hd => h g2 (List.mem_cons_of_mem _ hg2) hd) hfix
    | some q =>
      simp only [hop]
      by_cases hid : m.id = q.1
      · have hdr : isDriverB buffer snapN m g = true := by
          simp [isDriverB, hop, hid]
        have hq := h g (List.mem_cons_self g rest) hdr
        rw [hop] at hq
        obtain rfl := Option.some.inj hq
        rw [if_pos hid, hfix]
        exact ih m (fun g2 hg2 hd => h g2 (List.mem_cons_of_mem _ hg2) hd) hfix
      · rw [if_neg hid]
        exact ih m (fun g2 hg2 hd => h g2 (List.mem_cons_of_mem _ hg2) hd) hfix

theorem notionPointwise_unique_driver (buffer now : Int) (snapN : List Task) (g : Task)
    (p : Nat × Bool) (hop : notionOpOf buffer snapN g = some p) :
    ∀ (gs : List Task) (m : Task), m.id = p.1 → g ∈ gs →
    (∀ g2 ∈ gs, isDriverB buffer snapN m g2 = true → g2 = g) →
    notionPointwise buffer now snapN gs m = setCompleted now p.2 m := by
  intro gs
  induction gs with
  | nil => intro m _ hmem _; cases hmem
  | cons h rest ih =>
    intro m hid hmem huniq
    by_cases hdr : isDriverB buffer snapN m h = true
    · have hg : h = g := huniq h (List.mem_cons_self h rest) hdr
      subst hg
      simp only [notionPointwise, List.foldl_cons, hop]
      rw [if_pos hid]
      refine notionPointwise_fixed buffer now snapN p rest (setCompleted now p.2 m)
        (fun g2 hg2 hdrv2 => ?_) rfl
      have hdm : isDriverB buffer snapN m g2 = true := hdrv2
      rw [huniq g2 (List.mem_cons_of_mem _ hg2) hdm]
      exact hop
    · have hgr : g ∈ rest := by
        rcases List.mem_cons.mp hmem with rfl | hr
        · exact absurd (by simp [isDriverB, hop, hid]) hdr
        · exact hr
      simp only [notionPointwise, List.foldl_cons]
      cases hoph : notionOpOf buffer snapN h with
      | none =>
        simp only [hoph]
        exact ih m hid hgr (fun g2 hg2 hd => huniq g2 (List.mem_cons_of_mem _ hg2) hd)
      | some q =>
        simp only [hoph]
        simp only [isDriverB, hoph] at hdr
        rw [if_neg (ne_of_beq_false (Bool.eq_false_iff.mpr hdr))]
        exact ih m hid hgr (fun g2 hg2 hd => huniq g2 (List.mem_cons_of_mem _ hg2) hd)

theorem googlePointwise_not_mem (buffer now : Int) (snapN : List Task) :
    ∀ (gs : List Task) (t : Task),
    (∀ g2 ∈ gs, g2.id ≠ t.id) →
    googlePointwise buffer now snapN gs t = t := by
  intro gs
  induction gs with
  | nil => intro t _; rfl
  | cons g rest ih =>
    intro t h
    simp only [googlePointwise, List.foldl_cons]
    rw [if_neg (fun he => h g (List.mem_cons_self g rest) he.symm)]
    exact ih t (fun g2 hg2 => h g2 (List.mem_cons_of_mem _ hg2))

theorem googlePointwise_of_pairwise (buffer now : Int) (snapN : List Task) :
    ∀ (gs : List Task) (m : Task), m ∈ gs →
    gs.Pairwise (fun a b => a.id ≠ b.id) →
    googlePointwise buffer now snapN gs m = googleStep buffer now snapN m := by
  intro gs
  induction gs with
  | nil => intro m hm; cases hm
  | cons h rest ih =>
    intro m hmem hpw
    obtain ⟨hh, hrest⟩ := List.pairwise_cons.mp hpw
    rcases List.mem_cons.mp hmem with rfl | hr
    · simp only [googlePointwise, List.foldl_cons, if_true]
      have hnm : ∀ g2 ∈ rest, g2.id ≠ (googlePointwiseStep buffer now snapN m m).id := by
        intro g2 hg2
        rw [googlePointwiseStep_id]
        exact fun he => hh g2 hg2 he.symm
      exact googlePointwise_not_mem buffer now snapN rest _ hnm
    · simp only [googlePointwise, List.foldl_cons]
      rw [if_neg (fun he => hh m hr he.symm)]
      exact ih m hr hrest

/-- One full hybrid pass, written as per-record evolutions plus the two
created-task runs and the counter totals. -/
theorem performFullSync_characterization (buffer now : Int) (fresh : Nat) (N G : List Task)
    (hNfr : ∀ n ∈ N, n.id < fresh) :
    performFullSync buffer now fresh N G =
      { notion := N.map (notionPointwise buffer now N G) ++ createdNotionFrom now N G fresh,
        google := G.map (googlePointwise buffer now N G) ++
          createdGoogleFrom now (notionOnlyTasks N G)
            (fresh + G.countP (fun g => unmatchedB N g)),
        created := G.countP (fun g => unmatchedB N g) + (notionOnlyTasks N G).length,
        updated := G.countP (fun g => needsUpdateB buffer N g),
        fresh := fresh + G.countP (fun g => unmatchedB N g) +
          (notionOnlyTasks N G).length } := by
  simp only [performFullSync]
  rw [phase1_decomposition buffer now N G
      { notion := N, google := G, created := 0, updated := 0, fresh := fresh } hNfr]
  rw [createNotionOnly, createFold_eq]
  rw [applyNotionOps_eq_map, applyGoogleOps_eq_map]
  simp only [SyncState.mk.injEq]
  refine ⟨trivial, trivial, by omega, by omega, trivial⟩

theorem mem_createdNotionFrom {now : Int} {snapN : List Task} :
    ∀ {gs : List Task} {fr : Nat} {t : Task}, t ∈ createdNotionFrom now snapN gs fr →
    ∃ g ∈ gs, unmatchedB snapN g = true ∧ ∃ idv, t = mkNotionTask now idv g := by
  intro gs
  induction gs with
  | nil => intro fr t ht; cases ht
  | cons h rest ih =>
    intro fr t ht
    rw [createdNotionFrom_cons] at ht
    by_cases hu : unmatchedB snapN h
    · rw [if_pos hu] at ht
      rcases List.mem_cons.mp ht with rfl | ht2
      · exact ⟨h, List.mem_cons_self h rest, hu, fr, rfl⟩
      · obtain ⟨g, hg, hgu, idv, rfl⟩ := ih ht2
        exact ⟨g, List.mem_cons_of_mem _ hg, hgu, idv, rfl⟩
    · rw [if_neg hu] at ht
      obtain ⟨g, hg, hgu, idv, rfl⟩ := ih ht
      exact ⟨g, List.mem_cons_of_mem _ hg, hgu, idv, rfl⟩

theorem exists_mem_createdNotionFrom {now : Int} {snapN : List Task} :
    ∀ {gs : List Task} {fr : Nat} {g : Task}, g ∈ gs → unmatchedB snapN g = true →
    ∃ idv, mkNotionTask now idv g ∈ createdNotionFrom now snapN gs fr := by
  intro gs
  induction gs with
  | nil => intro fr g hg; cases hg
  | cons h rest ih =>
    intro fr g hg hu
    rw [createdNotionFrom_cons]
    rcases List.mem_cons.mp hg with rfl | hg2
    · rw [if_pos hu]
      exact ⟨fr, List.mem_cons_self _ _⟩
    · by_cases hh : unmatchedB snapN h
      · rw [if_pos hh]
        obtain ⟨idv, hidv⟩ := ih hg2 hu
        exact ⟨idv, List.mem_cons_of_mem _ hidv⟩
      · rw [if_neg hh]
        exact ih hg2 hu

theorem mem_createdGoogleFrom_rev {now : Int} :
    ∀ {l : List Task} {fr : Nat} {t : Task}, t ∈ createdGoogleFrom now l fr →
    ∃ n ∈ l, ∃ idv, t = mkGoogleTask now idv n := by
  intro l
  induction l with
  | nil => intro fr t ht; cases ht
  | cons h rest ih =>
    intro fr t ht
    rw [createdGoogleFrom] at ht
    rcases List.mem_cons.mp ht with rfl | ht2
    · exact ⟨h, List.mem_cons_self h rest, fr, rfl⟩
    · obtain ⟨n, hn, idv, rfl⟩ := ih ht2
      exact ⟨n, List.mem_cons_of_mem _ hn, idv, rfl⟩

theorem findMatch_map_notionPointwise (buffer now : Int) (snapN : List Task)
    (gs : List Task) (l : List Task) (g' : Task) :
    findMatch (l.map (notionPointwise buffer now snapN gs)) g' =
      (findMatch l g').map (notionPointwise buffer now snapN gs) := by
  rw [findMatch, findMatch, List.find?_map]
  congr 1
  apply find?_congr
  intro a _
  simp only [Function.comp_apply, notionPointwise_title]

theorem findMatch_append (l1 l2 : List Task) (g' : Task) :
    findMatch (l1 ++ l2) g' = (findMatch l1 g').or (findMatch l2 g') := by
  rw [findMatch, findMatch, findMatch, List.find?_append]

theorem findMatch_createdNotionFrom (now : Int) (snapN : List Task) (g' gN : Task)
    (hne : ¬ jsTrim gN.title = [])
    (hkey : normalizeTitle gN.title = normalizeTitle g'.title) :
    ∀ (gs : List Task) (fr : Nat), gN ∈ gs → unmatchedB snapN gN = true →
    (∀ g2 ∈ gs, unmatchedB snapN g2 = true → ¬ jsTrim g2.title = [] →
      normalizeTitle g2.title = normalizeTitle g'.title → g2 = gN) →
    ∃ idv, findMatch (createdNotionFrom now snapN gs fr) g' =
      some (mkNotionTask now idv gN) := by
  intro gs
  induction gs with
  | nil => intro fr hmem; cases hmem
  | cons h rest ih =>
    intro fr hmem hu huniq
    rw [createdNotionFrom_cons]
    by_cases hh : unmatchedB snapN h
    · rw [if_pos hh]
      rw [findMatch, List.find?_cons]
      by_cases hp : (!(jsTrim (mkNotionTask now fr h).title).isEmpty &&
          (normalizeTitle (mkNotionTask now fr h).title == normalizeTitle g'.title)) = true
      · rw [hp]
        have hp2 := hp
        rw [Bool.and_eq_true] at hp2
        have hkey2 : normalizeTitle h.title = normalizeTitle g'.title :=
          beq_iff_eq.mp hp2.2
        have hne2 : ¬ jsTrim h.title = [] := by
          have hgerman := hp2.1
          intro hcon
          rw [show (mkNotionTask now fr h).title = h.title from rfl, hcon] at hgerman
          simp at hgerman
        have : h = gN := huniq h (List.mem_cons_self h rest) hh hne2 hkey2
        subst this
        exact ⟨fr, rfl⟩
      · have hmem2 : gN ∈ rest := by
          rcases List.mem_cons.mp hmem with rfl | hr
          · exfalso
            apply hp
            rw [Bool.and_eq_true]
            refine ⟨?_, beq_iff_eq.mpr hkey⟩
            rw [show (mkNotionTask now fr gN).title = gN.title from rfl]
            rw [isEmpty_eq_false_of_ne_nil hne]
            rfl
          · exact hr
        rw [Bool.eq_false_iff.mpr hp]
        exact ih (fr + 1) hmem2 hu
          (fun g2 hg2 => huniq g2 (List.mem_cons_of_mem _ hg2))
    · rw [if_neg hh]
      have hmem2 : gN ∈ rest := by
        rcases List.mem_cons.mp hmem with rfl | hr
        · exact absurd hu hh
        · exact hr
      exact ih fr hmem2 hu (fun g2 hg2 => huniq g2 (List.mem_cons_of_mem _ hg2))

theorem setCompleted_notes (now : Int) (b : Bool) (t : Task) :
    (setCompleted now b t).notes = t.notes := rfl

theorem setCompleted_completed (now : Int) (b : Bool) (t : Task) :
    (setCompleted now b t).completed = b := rfl

theorem setNotes_completed (now : Int) (c : List Char) (t : Task) :
    (setNotes now c t).completed = t.completed := rfl

theorem setNotes_notes (now : Int) (c : List Char) (t : Task) :
    (setNotes now c t).notes = c := rfl

theorem findMatch_congr_title {l : List Task} {g1 g2 : Task}
    (h : normalizeTitle g1.title = normalizeTitle g2.title) :
    findMatch l g1 = findMatch l g2 := by
  rw [findMatch, findMatch]
  exact find?_congr (fun a _ => by rw [h])

theorem notionOpOf_eq_some (buffer : Int) (snapN : List Task) (g n : Task)
    (ht : ¬ jsTrim g.title = []) (hm : findMatch snapN g = some n)
    (hcN : complToNotionB buffer g n = true) :
    notionOpOf buffer snapN g = some (n.id, g.completed) := by
  rw [notionOpOf, if_neg ht]
  simp only [hm]
  rw [if_pos hcN]

theorem isDriver_implies (buffer : Int) (snapN : List Task) (m g2 : Task)
    (h : isDriverB buffer snapN m g2 = true) :
    ¬ jsTrim g2.title = [] ∧ ∃ n2, findMatch snapN g2 = some n2 ∧ n2.id = m.id ∧
      complToNotionB buffer g2 n2 = true := by
  simp only [isDriverB] at h
  by_cases ht : jsTrim g2.title = []
  · rw [notionOpOf, if_pos ht] at h
    simp at h
  · refine ⟨ht, ?_⟩
    rw [notionOpOf, if_neg ht] at h
    cases hm : findMatch snapN g2 with
    | none => simp only [hm] at h; simp at h
    | some n2 =>
      simp only [hm] at h
      by_cases hcN : complToNotionB buffer g2 n2 = true
      · rw [if_pos hcN] at h
        simp only [beq_iff_eq] at h
        exact ⟨n2, rfl, h.symm, hcN⟩
      · rw [if_neg hcN] at h
        simp at h

theorem findMatch_spec {N : List Task} {g n : Task} (h : findMatch N g = some n) :
    n ∈ N ∧ ¬ jsTrim n.title = [] ∧ normalizeTitle n.title = normalizeTitle g.title := by
  rw [findMatch] at h
  have hmem := List.mem_of_find?_eq_some h
  have hp := List.find?_some h
  rw [Bool.and_eq_true] at hp
  refine ⟨hmem, ?_, beq_iff_eq.mp hp.2⟩
  intro hcon
  have hp1 := hp.1
  rw [hcon] at hp1
  simp at hp1

theorem findMatch_eq_some_self (g' n : Task) : ∀ (N : List Task), n ∈ N →
    ¬ jsTrim n.title = [] → normalizeTitle n.title = normalizeTitle g'.title →
    (∀ n2 ∈ N, ¬ jsTrim n2.title = [] →
      normalizeTitle n2.title = normalizeTitle g'.title → n2 = n) →
    findMatch N g' = some n := by
  intro N
  induction N with
  | nil => intro h; cases h
  | cons h rest ih =>
    intro hmem hne hkey huniq
    rw [findMatch, List.find?_cons]
    by_cases hp : (!(jsTrim h.title).isEmpty &&
        (normalizeTitle h.title == normalizeTitle g'.title)) = true
    · rw [hp]
      have hp2 := hp
      rw [Bool.and_eq_true] at hp2
      have hne2 : ¬ jsTrim h.title = [] := by
        have hx := hp2.1
        intro hcon
        rw [hcon] at hx
        simp at hx
      rw [huniq h (List.mem_cons_self h rest) hne2 (beq_iff_eq.mp hp2.2)]
    · rw [Bool.eq_false_iff.mpr hp]
      have hmem2 : n ∈ rest := by
        rcases List.mem_cons.mp hmem with rfl | hr
        · exfalso
          apply hp
          rw [Bool.and_eq_true]
          refine ⟨?_, beq_iff_eq.mpr hkey⟩
          rw [isEmpty_eq_false_of_ne_nil hne]
          rfl
        · exact hr
      exact ih hmem2 hne hkey (fun n2 h2 => huniq n2 (List.mem_cons_of_mem _ h2))

theorem mem_notionOnlyTasks {N G : List Task} {n : Task} (h : n ∈ notionOnlyTasks N G) :
    n ∈ N ∧ ¬ jsTrim n.title = [] ∧
      ∀ g ∈ G, ¬ jsTrim g.title = [] → normalizeTitle n.title ≠ normalizeTitle g.title := by
  rw [notionOnlyTasks, List.mem_filter] at h
  obtain ⟨hmem, hp⟩ := h
  rw [Bool.and_eq_true] at hp
  refine ⟨hmem, ?_, ?_⟩
  · intro hcon
    have hx := hp.1
    rw [hcon] at hx
    simp at hx
  · have hnone : (G.find? (fun gt =>
        !(jsTrim gt.title).isEmpty &&
          (normalizeTitle n.title == normalizeTitle gt.title))) = none :=
      Option.isNone_iff_eq_none.mp hp.2
    intro g hg hgne hkey
    have := List.find?_eq_none.mp hnone g hg
    apply this
    rw [Bool.and_eq_true]
    refine ⟨?_, beq_iff_eq.mpr hkey⟩
    rw [isEmpty_eq_false_of_ne_nil hgne]
    rfl

theorem mem_notionOnlyTasks_of {N G : List Task} {n : Task} (hnN : n ∈ N)
    (hne : ¬ jsTrim n.title = [])
    (hno : ∀ g ∈ G, ¬ jsTrim g.title = [] →
      normalizeTitle n.title ≠ normalizeTitle g.title) :
    n ∈ notionOnlyTasks N G := by
  rw [notionOnlyTasks, List.mem_filter]
  refine ⟨hnN, ?_⟩
  rw [Bool.and_eq_true]
  constructor
  · rw [isEmpty_eq_false_of_ne_nil hne]
    rfl
  · rw [Option.isNone_iff_eq_none, List.find?_eq_none]
    intro g hg hcon
    rw [Bool.and_eq_true] at hcon
    have hgne : ¬ jsTrim g.title = [] := by
      have hx := hcon.1
      intro hc2
      rw [hc2] at hx
      simp at hx
    exact hno g hg hgne (beq_iff_eq.mp hcon.2)

theorem mem_createdNotionFrom_id_lt {now : Int} {snapN : List Task} :
    ∀ {gs : List Task} {fr : Nat} {t : Task}, t ∈ createdNotionFrom now snapN gs fr →
    t.id < fr + gs.countP (fun g => unmatchedB snapN g) := by
  intro gs
  induction gs with
  | nil => intro fr t ht; cases ht
  | cons h rest ih =>
    intro fr t ht
    rw [createdNotionFrom_cons] at ht
    rw [List.countP_cons]
    by_cases hu : unmatchedB snapN h
    · rw [if_pos hu] at ht
      rcases List.mem_cons.mp ht with rfl | ht2
      · simp only [mkNotionTask, hu]
        simp
      · have := ih ht2
        simp only [hu]
        simp only [if_pos]
        omega
    · rw [if_neg hu] at ht
      have := ih ht
      have hu2 : unmatchedB snapN h = false := Bool.eq_false_iff.mpr hu
      simp only [hu2]
      simp
      omega

theorem exists_mem_createdGoogleFrom {now : Int} :
    ∀ {l : List Task} {fr : Nat} {n : Task}, n ∈ l →
    ∃ idv, mkGoogleTask now idv n ∈ createdGoogleFrom now l fr := by
  intro l
  induction l with
  | nil => intro fr n h; cases h
  | cons h rest ih =>
    intro fr n hmem
    rcases List.mem_cons.mp hmem with rfl | hr
    · exact ⟨fr, by rw [createdGoogleFrom]; exact List.mem_cons_self _ _⟩
    · obtain ⟨idv, hidv⟩ := ih hr
      exact ⟨idv, by rw [createdGoogleFrom]; exact List.mem_cons_of_mem _ hidv⟩

theorem googlePointwise_title (buffer now : Int) (snapN : List Task) :
    ∀ (gs : List Task) (t : Task),
    (googlePointwise buffer now snapN gs t).title = t.title := by
  intro gs
  induction gs with
  | nil => intro t; rfl
  | cons g rest ih =>
    intro t
    simp only [googlePointwise, List.foldl_cons]
    have hrec := ih (if t.id = g.id then googlePointwiseStep buffer now snapN g t else t)
    simp only [googlePointwise] at hrec
    rw [hrec]
    by_cases hid : t.id = g.id
    · rw [if_pos hid, googlePointwiseStep_title]
    · rw [if_neg hid]

theorem updateTaskById_map_setNotes (store : List Task) (tid : Nat) (now : Int)
    (c : List Char) :
    (updateTaskById store tid (setNotes now c)).map (fun t => (t.id, t.completed)) =
      store.map (fun t => (t.id, t.completed)) := by
  rw [updateTaskById, List.map_map]
  congr 1
  funext t
  by_cases hid : t.id = tid <;> simp [Function.comp, hid, setNotes]

theorem second_pass_noop_of (buffer : Int) (snapN' : List Task) (g' n' : Task)
    (hm : findMatch snapN' g' = some n')
    (hnotes : jsTrim n'.notes = jsTrim g'.notes)
    (hcompl : n'.completed = g'.completed) :
    unmatchedB snapN' g' = false ∧ needsUpdateB buffer snapN' g' = false := by
  constructor
  · rw [unmatchedB, hm]
    simp
  · simp only [needsUpdateB, hm]
    have h1 : complToNotionB buffer g' n' = false := by simp [complToNotionB, hcompl]
    have h2 : complToGoogleB buffer g' n' = false := by simp [complToGoogleB, hcompl]
    have h3 : notesDifferB g' n' = false := by simp [notesDifferB, hnotes]
    rw [h1, h2, h3]
    simp

theorem notes_resolution (g n : Task)
    (hcInst : jsTrim n.notes = jsTrim g.notes ∨
      (¬ jsTrim n.notes = [] ∧ (jsTrim n.notes).length ≤ 8000)) :
    (notesWriteB g n = true ∧ notesPayload n = jsTrim n.notes) ∨
    (notesWriteB g n = false ∧ jsTrim n.notes = jsTrim g.notes) := by
  by_cases heq : jsTrim n.notes = jsTrim g.notes
  · right
    refine ⟨?_, heq⟩
    simp [notesWriteB, notesDifferB, heq]
  · left
    rcases hcInst with h | ⟨hnn, hle⟩
    · exact absurd h heq
    · have hpay : notesPayload n = jsTrim n.notes := by
        rw [notesPayload, if_neg (by omega)]
      refine ⟨?_, hpay⟩
      rw [notesWriteB, hpay]
      have hd : notesDifferB g n = true := by
        simp [notesDifferB, bne_iff_ne, heq]
      rw [hd]
      rw [isEmpty_eq_false_of_ne_nil hnn]
      rfl

theorem driver_unique_google (buffer : Int) (N G : List Task)
    (hNid : N.Pairwise (fun a b => a.id ≠ b.id)) (hGt : UniqueTitles G)
    (g n : Task) (hgG : g ∈ G) (ht : ¬ jsTrim g.title = [])
    (hm : findMatch N g = some n) :
    ∀ g2 ∈ G, isDriverB buffer N n g2 = true → g2 = g := by
  intro g2 hg2 h
  obtain ⟨ht2, n2, hm2, hid, _⟩ := isDriver_implies _ _ _ _ h
  obtain ⟨hn2N, _, hkey2⟩ := findMatch_spec hm2
  obtain ⟨hnN, _, hkey1⟩ := findMatch_spec hm
  have heqn : n2 = n := eq_of_mem_pairwise_id hNid n2 hn2N n hnN hid
  subst heqn
  exact hGt g2 hg2 g hgG ht2 ht (hkey2.symm.trans hkey1)

theorem driver_none_google (buffer : Int) (N G : List Task)
    (hNid : N.Pairwise (fun a b => a.id ≠ b.id)) (hGt : UniqueTitles G)
    (g n : Task) (hgG : g ∈ G) (ht : ¬ jsTrim g.title = [])
    (hm : findMatch N g = some n) (hcN : complToNotionB buffer g n = false) :
    ∀ g2 ∈ G, isDriverB buffer N n g2 = false := by
  intro g2 hg2
  cases hcase : isDriverB buffer N n g2 with
  | false => rfl
  | true =>
    exfalso
    have hg2g : g2 = g := driver_unique_google buffer N G hNid hGt g n hgG ht hm g2 hg2 hcase
    obtain ⟨ht2, n2, hm2, hid, hc2⟩ := isDriver_implies _ _ _ _ hcase
    subst hg2g
    rw [hm] at hm2
    injection hm2 with hx
    rw [← hx] at hc2
    rw [hcN] at hc2
    exact Bool.noConfusion hc2

theorem driver_none_notionOnly (buffer : Int) (N G : List Task)
    (hNid : N.Pairwise (fun a b => a.id ≠ b.id)) (n : Task) (hnN : n ∈ N)
    (hno : ∀ g ∈ G, ¬ jsTrim g.title = [] →
      normalizeTitle n.title ≠ normalizeTitle g.title) :
    ∀ g2 ∈ G, isDriverB buffer N n g2 = false := by
  intro g2 hg2
  cases hcase : isDriverB buffer N n g2 with
  | false => rfl
  | true =>
    exfalso
    obtain ⟨ht2, n2, hm2, hid, _⟩ := isDriver_implies _ _ _ _ hcase
    obtain ⟨hn2N, _, hkey2⟩ := findMatch_spec hm2
    have heqn : n2 = n := eq_of_mem_pairwise_id hNid n2 hn2N n hnN hid
    subst heqn
    exact hno g2 hg2 ht2 hkey2

/-- Every Google record the first pass leaves behind either has an empty
trimmed title (phase 1 skips it) or finds, in the Notion store the first
pass leaves behind, a partner with the same trimmed notes and the same
completion flag. -/
theorem pass1_second_pass_google (buffer now1 : Int) (fresh fr2 : Nat) (N G : List Task)
    (hNid : N.Pairwise (fun a b => a.id ≠ b.id))
    (hGid : G.Pairwise (fun a b => a.id ≠ b.id))
    (hNt : UniqueTitles N) (hGt : UniqueTitles G)
    (hb : ∀ g ∈ G, ∀ n ∈ N, findMatch N g = some n → n.completed ≠ g.completed →
      (g.lastModified - n.lastModified > buffer ∨ g.lastModified - n.lastModified < -buffer))
    (hc : ∀ g ∈ G, ∀ n ∈ N, findMatch N g = some n →
      (jsTrim n.notes = jsTrim g.notes ∨
        (¬ jsTrim n.notes = [] ∧ (jsTrim n.notes).length ≤ 8000)))
    (hd : ∀ n ∈ notionOnlyTasks N G, n.notes.length ≤ 8000)
    (g' : Task)
    (hg' : g' ∈ G.map (googlePointwise buffer now1 N G) ++
      createdGoogleFrom now1 (notionOnlyTasks N G) fr2) :
    jsTrim g'.title = [] ∨
    ∃ n', findMatch (N.map (notionPointwise buffer now1 N G) ++
        createdNotionFrom now1 N G fresh) g' = some n' ∧
      jsTrim n'.notes = jsTrim g'.notes ∧ n'.completed = g'.completed := by
  rcases List.mem_append.mp hg' with hmap | hcg
  · obtain ⟨g, hgG, rfl⟩ := List.mem_map.mp hmap
    by_cases ht : jsTrim g.title = []
    · left
      rw [googlePointwise_title]
      exact ht
    · right
      have hstep := googlePointwise_of_pairwise buffer now1 N G g hgG hGid
      have htg : (googleStep buffer now1 N g).title = g.title :=
        googlePointwiseStep_title buffer now1 N g g
      have hkeyc : normalizeTitle (googleStep buffer now1 N g).title =
          normalizeTitle g.title := by rw [htg]
      cases hm : findMatch N g with
      | none =>
        have hgs : googleStep buffer now1 N g = g := by
          simp [googleStep, googlePointwiseStep, ht, hm]
        have hu : unmatchedB N g = true := by
          rw [unmatchedB, hm, isEmpty_eq_false_of_ne_nil ht]
          rfl
        have huniq : ∀ g2 ∈ G, unmatchedB N g2 = true → ¬ jsTrim g2.title = [] →
            normalizeTitle g2.title = normalizeTitle g.title → g2 = g :=
          fun g2 hg2 _ hne2 hkey2 => hGt g2 hg2 g hgG hne2 ht hkey2
        obtain ⟨idv, hfmc⟩ := findMatch_createdNotionFrom now1 N g g ht rfl G fresh hgG hu huniq
        have hfm' : findMatch (N.map (notionPointwise buffer now1 N G) ++
            createdNotionFrom now1 N G fresh) (googlePointwise buffer now1 N G g) =
            some (mkNotionTask now1 idv g) := by
          rw [hstep, findMatch_congr_title hkeyc, findMatch_append,
            findMatch_map_notionPointwise, hm]
          simp only [Option.map_none', Option.none_or]
          exact hfmc
        refine ⟨_, hfm', ?_, ?_⟩
        · rw [hstep, hgs]
          rfl
        · rw [hstep, hgs]
          rfl
      | some n =>
        have hnN : n ∈ N := (findMatch_spec hm).1
        have hfm' : findMatch (N.map (notionPointwise buffer now1 N G) ++
            createdNotionFrom now1 N G fresh) (googlePointwise buffer now1 N G g) =
            some (notionPointwise buffer now1 N G n) := by
          rw [hstep, findMatch_congr_title hkeyc, findMatch_append,
            findMatch_map_notionPointwise, hm]
          rfl
        have hnotesres := notes_resolution g n (hc g hgG n hnN hm)
        by_cases hcE : n.completed = g.completed
        · have hcN : complToNotionB buffer g n = false := by simp [complToNotionB, hcE]
          have hcG : complToGoogleB buffer g n = false := by simp [complToGoogleB, hcE]
          have hpw : notionPointwise buffer now1 N G n = n :=
            notionPointwise_no_driver buffer now1 N G n
              (driver_none_google buffer N G hNid hGt g n hgG ht hm hcN)
          rcases hnotesres with ⟨hnw, hpay⟩ | ⟨hnw, heqn⟩
          · have hgs : googleStep buffer now1 N g = setNotes now1 (notesPayload n) g := by
              simp [googleStep, googlePointwiseStep, ht, hm, hcG, hnw]
            refine ⟨_, hfm', ?_, ?_⟩
            · rw [hpw, hstep, hgs, setNotes_notes, hpay, jsTrim_idem]
            · rw [hpw, hstep, hgs, setNotes_completed]
              exact hcE
          · have hgs : googleStep buffer now1 N g = g := by
              simp [googleStep, googlePointwiseStep, ht, hm, hcG, hnw]
            refine ⟨_, hfm', ?_, ?_⟩
            · rw [hpw, hstep, hgs]
              exact heqn
            · rw [hpw, hstep, hgs]
              exact hcE
        · have hAB := hb g hgG n hnN hm hcE
          by_cases hA : g.lastModified - n.lastModified > buffer
          · have hcN : complToNotionB buffer g n = true := by
              simp [complToNotionB, hA, bne_iff_ne]
              exact hcE
            have hcG : complToGoogleB buffer g n = false := by simp [complToGoogleB, hA]
            have hop := notionOpOf_eq_some buffer N g n ht hm hcN
            have hpw : notionPointwise buffer now1 N G n =
                setCompleted now1 g.completed n :=
              notionPointwise_unique_driver buffer now1 N g (n.id, g.completed) hop G n rfl
                hgG (driver_unique_google buffer N G hNid hGt g n hgG ht hm)
            rcases hnotesres with ⟨hnw, hpay⟩ | ⟨hnw, heqn⟩
            · have hgs : googleStep buffer now1 N g = setNotes now1 (notesPayload n) g := by
                simp [googleStep, googlePointwiseStep, ht, hm, hcG, hnw]
              refine ⟨_, hfm', ?_, ?_⟩
              · rw [hpw, hstep, hgs, setNotes_notes, setCompleted_notes, hpay, jsTrim_idem]
              · rw [hpw, hstep, hgs, setNotes_completed, setCompleted_completed]
            · have hgs : googleStep buffer now1 N g = g := by
                simp [googleStep, googlePointwiseStep, ht, hm, hcG, hnw]
              refine ⟨_, hfm', ?_, ?_⟩
              · rw [hpw, hstep, hgs, setCompleted_notes]
                exact heqn
              · rw [hpw, hstep, hgs, setCompleted_completed]
          · have hB : g.lastModified - n.lastModified < -buffer := hAB.resolve_left hA
            have hcN : complToNotionB buffer g n = false := by simp [complToNotionB, hA]
            have hcG : complToGoogleB buffer g n = true := by
              simp [complToGoogleB, hA, hB, bne_iff_ne]
              exact fun hcon => hcE hcon.symm
            have hpw : notionPointwise buffer now1 N G n = n :=
              notionPointwise_no_driver buffer now1 N G n
                (driver_none_google buffer N G hNid hGt g n hgG ht hm hcN)
            rcases hnotesres with ⟨hnw, hpay⟩ | ⟨hnw, heqn⟩
            · have hgs : googleStep buffer now1 N g =
                  setNotes now1 (notesPayload n) (setCompleted now1 n.completed g) := by
                simp [googleStep, googlePointwiseStep, ht, hm, hcG, hnw]
              refine ⟨_, hfm', ?_, ?_⟩
              · rw [hpw, hstep, hgs, setNotes_notes, hpay, jsTrim_idem]
              · rw [hpw, hstep, hgs, setNotes_completed, setCompleted_completed]
            · have hgs : googleStep buffer now1 N g = setCompleted now1 n.completed g := by
                simp [googleStep, googlePointwiseStep, ht, hm, hcG, hnw]
              refine ⟨_, hfm', ?_, ?_⟩
              · rw [hpw, hstep, hgs, setCompleted_notes]
                exact heqn
              · rw [hpw, hstep, hgs, setCompleted_completed]
  · obtain ⟨n, hnNO, idv, rfl⟩ := mem_createdGoogleFrom_rev hcg
    obtain ⟨hnN, hne, hno⟩ := mem_notionOnlyTasks hnNO
    right
    have hfmN : findMatch N n = some n :=
      findMatch_eq_some_self n n N hnN hne rfl
        (fun n2 h2 hne2 hkey2 => hNt n2 h2 n hnN hne2 hne hkey2)
    have hfm' : findMatch (N.map (notionPointwise buffer now1 N G) ++
        createdNotionFrom now1 N G fresh) (mkGoogleTask now1 idv n) =
        some (notionPointwise buffer now1 N G n) := by
      have hkeyc : normalizeTitle (mkGoogleTask now1 idv n).title =
          normalizeTitle n.title := rfl
      rw [findMatch_congr_title hkeyc, findMatch_append,
        findMatch_map_notionPointwise, hfmN]
      rfl
    have hpw : notionPointwise buffer now1 N G n = n :=
      notionPointwise_no_driver buffer now1 N G n
        (driver_none_notionOnly buffer N G hNid n hnN hno)
    have hlen : n.notes.length ≤ 8000 := hd n hnNO
    have hmknotes : (mkGoogleTask now1 idv n).notes = n.notes := by
      show (if n.notes.length > 8000 then createSmartTruncation n.notes 8000
        else n.notes) = n.notes
      rw [if_neg (by omega)]
    refine ⟨_, hfm', ?_, ?_⟩
    · rw [hpw, hmknotes]
    · rw [hpw]
      rfl

/-- Every Notion record the first pass leaves behind either has an empty
trimmed title or has a normalized-title mate in the Google store the first
pass leaves behind, so phase 2 of a second pass creates nothing. -/
theorem pass1_second_pass_notion (buffer now1 : Int) (fresh fr2 : Nat) (N G : List Task)
    (n' : Task)
    (hn' : n' ∈ N.map (notionPointwise buffer now1 N G) ++
      createdNotionFrom now1 N G fresh) :
    jsTrim n'.title = [] ∨
    ∃ g'' ∈ G.map (googlePointwise buffer now1 N G) ++
        createdGoogleFrom now1 (notionOnlyTasks N G) fr2,
      ¬ jsTrim g''.title = [] ∧ normalizeTitle n'.title = normalizeTitle g''.title := by
  rcases List.mem_append.mp hn' with hmap | hcn
  · obtain ⟨n, hnN, rfl⟩ := List.mem_map.mp hmap
    by_cases hne : jsTrim n.title = []
    · left
      rw [notionPointwise_title]
      exact hne
    · right
      by_cases hex : ∃ g ∈ G, ¬ jsTrim g.title = [] ∧
          normalizeTitle n.title = normalizeTitle g.title
      · obtain ⟨g, hgG, hgne, hkey⟩ := hex
        refine ⟨googlePointwise buffer now1 N G g,
          List.mem_append_left _ (List.mem_map_of_mem _ hgG), ?_, ?_⟩
        · rw [googlePointwise_title]
          exact hgne
        · rw [notionPointwise_title, googlePointwise_title]
          exact hkey
      · push_neg at hex
        have hnNO : n ∈ notionOnlyTasks N G := mem_notionOnlyTasks_of hnN hne hex
        obtain ⟨idv, hidv⟩ :=
          @exists_mem_createdGoogleFrom now1 (notionOnlyTasks N G) fr2 n hnNO
        refine ⟨mkGoogleTask now1 idv n, List.mem_append_right _ hidv, ?_, ?_⟩
        · exact hne
        · rw [notionPointwise_title]
          rfl
  · obtain ⟨g, hgG, hu, idv, rfl⟩ := mem_createdNotionFrom hcn
    right
    have hu' := hu
    rw [unmatchedB, Bool.and_eq_true] at hu'
    have hne : ¬ jsTrim g.title = [] := by
      have hx := hu'.1
      intro hcon
      rw [hcon] at hx
      simp at hx
    refine ⟨googlePointwise buffer now1 N G g,
      List.mem_append_left _ (List.mem_map_of_mem _ hgG), ?_, ?_⟩
    · rw [googlePointwise_title]
      exact hne
    · rw [googlePointwise_title]
      rfl

/-- C1 counterexample: a matched pair with whitespace-only Notion notes and
nonempty Google notes.  Phase 1 sees differing trimmed notes, so it marks
the task as needing an update, but updateGoogleNotes skips the write
because the processed content is empty.  The pass returns both stores
unchanged, yet counts one update — and a second pass over the identical
resulting stores counts one update again, so the second pass does not
perform zero update operations. -/
theorem second_pass_zero_updates_counterexample :
    performFullSync SYNC_BUFFER 100 2
        [(⟨0, "Chore".toList, false, none, " ".toList, 0⟩ : Task)]
        [(⟨1, "Chore".toList, false, none, "x".toList, 0⟩ : Task)] =
      { notion := [(⟨0, "Chore".toList, false, none, " ".toList, 0⟩ : Task)],
        google := [(⟨1, "Chore".toList, false, none, "x".toList, 0⟩ : Task)],
        created := 0, updated := 1, fresh := 2 } ∧
    (performFullSync SYNC_BUFFER 200
        (performFullSync SYNC_BUFFER 100 2
          [(⟨0, "Chore".toList, false, none, " ".toList, 0⟩ : Task)]
          [(⟨1, "Chore".toList, false, none, "x".toList, 0⟩ : Task)]).fresh
        (performFullSync SYNC_BUFFER 100 2
          [(⟨0, "Chore".toList, false, none, " ".toList, 0⟩ : Task)]
          [(⟨1, "Chore".toList, false, none, "x".toList, 0⟩ : Task)]).notion
        (performFullSync SYNC_BUFFER 100 2
          [(⟨0, "Chore".toList, false, none, " ".toList, 0⟩ : Task)]
          [(⟨1, "Chore".toList, false, none, "x".toList, 0⟩ : Task)]).google).updated = 1 := by
  decide

/-- C1 amended: under snapshot well-formedness (distinct ids per side, ids
below the fresh-id counter, unambiguous nonempty normalized titles per
side) and with the degenerate notes and completion cases excluded (every
matched pair either has equal trimmed notes or nonempty trimmed Notion
notes within the 8000-character limit; matched pairs with differing
completion flags differ in stamps by more than the buffer; Notion-only
notes are within the 8000-character limit), running a second full sync
pass over the stores and fresh-id counter the first pass returns performs
zero creates and zero updates. -/
theorem second_pass_idempotent (buffer now1 now2 : Int) (fresh : Nat) (N G : List Task)
    (hNid : N.Pairwise (fun a b => a.id ≠ b.id))
    (hGid : G.Pairwise (fun a b => a.id ≠ b.id))
    (hNfr : ∀ n ∈ N, n.id < fresh)
    (hNt : UniqueTitles N) (hGt : UniqueTitles G)
    (hb : ∀ g ∈ G, ∀ n ∈ N, findMatch N g = some n → n.completed ≠ g.completed →
      (g.lastModified - n.lastModified > buffer ∨
        g.lastModified - n.lastModified < -buffer))
    (hc : ∀ g ∈ G, ∀ n ∈ N, findMatch N g = some n →
      (jsTrim n.notes = jsTrim g.notes ∨
        (¬ jsTrim n.notes = [] ∧ (jsTrim n.notes).length ≤ 8000)))
    (hd : ∀ n ∈ notionOnlyTasks N G, n.notes.length ≤ 8000) :
    (performFullSync buffer now2 (performFullSync buffer now1 fresh N G).fresh
        (performFullSync buffer now1 fresh N G).notion
        (performFullSync buffer now1 fresh N G).google).created = 0 ∧
    (performFullSync buffer now2 (performFullSync buffer now1 fresh N G).fresh
        (performFullSync buffer now1 fresh N G).notion
        (performFullSync buffer now1 fresh N G).google).updated = 0 := by
  have hchar1 := performFullSync_characterization buffer now1 fresh N G hNfr
  rw [hchar1]
  show (performFullSync buffer now2
      (fresh + G.countP (fun g => unmatchedB N g) + (notionOnlyTasks N G).length)
      (N.map (notionPointwise buffer now1 N G) ++ createdNotionFrom now1 N G fresh)
      (G.map (googlePointwise buffer now1 N G) ++
        createdGoogleFrom now1 (notionOnlyTasks N G)
          (fresh + G.countP (fun g => unmatchedB N g)))).created = 0 ∧
    (performFullSync buffer now2
      (fresh + G.countP (fun g => unmatchedB N g) + (notionOnlyTasks N G).length)
      (N.map (notionPointwise buffer now1 N G) ++ createdNotionFrom now1 N G fresh)
      (G.map (googlePointwise buffer now1 N G) ++
        createdGoogleFrom now1 (notionOnlyTasks N G)
          (fresh + G.countP (fun g => unmatchedB N g)))).updated = 0
  have hfr2 : ∀ t ∈ N.map (notionPointwise buffer now1 N G) ++
      createdNotionFrom now1 N G fresh,
      t.id < fresh + G.countP (fun g => unmatchedB N g) + (notionOnlyTasks N G).length := by
    intro t htm
    rcases List.mem_append.mp htm with hmapm | hcnm
    · obtain ⟨n, hnN, rfl⟩ := List.mem_map.mp hmapm
      rw [notionPointwise_id]
      have := hNfr n hnN
      omega
    · have := mem_createdNotionFrom_id_lt hcnm
      omega
  have hchar2 := performFullSync_characterization buffer now2
    (fresh + G.countP (fun g => unmatchedB N g) + (notionOnlyTasks N G).length)
    (N.map (notionPointwise buffer now1 N G) ++ createdNotionFrom now1 N G fresh)
    (G.map (googlePointwise buffer now1 N G) ++
      createdGoogleFrom now1 (notionOnlyTasks N G)
        (fresh + G.countP (fun g => unmatchedB N g)))
    hfr2
  have hGfact : ∀ g' ∈ G.map (googlePointwise buffer now1 N G) ++
      createdGoogleFrom now1 (notionOnlyTasks N G)
        (fresh + G.countP (fun g => unmatchedB N g)),
      unmatchedB (N.map (notionPointwise buffer now1 N G) ++
        createdNotionFrom now1 N G fresh) g' = false ∧
      needsUpdateB buffer (N.map (notionPointwise buffer now1 N G) ++
        createdNotionFrom now1 N G fresh) g' = false := by
    intro g' hg'
    rcases pass1_second_pass_google buffer now1 fresh
        (fresh + G.countP (fun g => unmatchedB N g)) N G hNid hGid hNt hGt hb hc hd g' hg'
      with hempty | ⟨n', hm, hnotes, hcompl⟩
    · constructor
      · simp [unmatchedB, hempty]
      · simp [needsUpdateB, hempty]
    · exact second_pass_noop_of buffer _ g' n' hm hnotes hcompl
  constructor
  · rw [hchar2]
    show (_ : List Task).countP _ + (notionOnlyTasks _ _).length = 0
    have h1 : (G.map (googlePointwise buffer now1 N G) ++
        createdGoogleFrom now1 (notionOnlyTasks N G)
          (fresh + G.countP (fun g => unmatchedB N g))).countP
        (fun g => unmatchedB (N.map (notionPointwise buffer now1 N G) ++
          createdNotionFrom now1 N G fresh) g) = 0 := by
      rw [List.countP_eq_zero]
      intro g' hg'
      simp [(hGfact g' hg').1]
    have h2 : notionOnlyTasks
        (N.map (notionPointwise buffer now1 N G) ++ createdNotionFrom now1 N G fresh)
        (G.map (googlePointwise buffer now1 N G) ++
          createdGoogleFrom now1 (notionOnlyTasks N G)
            (fresh + G.countP (fun g => unmatchedB N g))) = [] := by
      rw [notionOnlyTasks, List.filter_eq_nil]
      intro n' hn'
      rcases pass1_second_pass_notion buffer now1 fresh
          (fresh + G.countP (fun g => unmatchedB N g)) N G n' hn'
        with hempty | ⟨g'', hg'', hgne, hkey⟩
      · simp [hempty]
      · intro hcon
        rw [Bool.and_eq_true] at hcon
        have hnone := Option.isNone_iff_eq_none.mp hcon.2
        have hforall := List.find?_eq_none.mp hnone g'' hg''
        apply hforall
        rw [Bool.and_eq_true]
        exact ⟨by rw [isEmpty_eq_false_of_ne_nil hgne]; rfl, beq_iff_eq.mpr hkey⟩
    rw [h1, h2]
    rfl
  · rw [hchar2]
    show (_ : List Task).countP _ = 0
    rw [List.countP_eq_zero]
    intro g' hg'
    simp [(hGfact g' hg').2]

/-- C1 amended witness: a single matched pair with equal notes and flags
differing across a 10000 ms stamp gap; the hypotheses hold by computation
and the second pass creates and updates nothing. -/
theorem second_pass_idempotent_witness :
    UniqueTitles [(⟨0, "A".toList, false, none, "note".toList, 0⟩ : Task)] ∧
    ((performFullSync SYNC_BUFFER 30000
        (performFullSync SYNC_BUFFER 20000 2
          [(⟨0, "A".toList, false, none, "note".toList, 0⟩ : Task)]
          [(⟨1, "A".toList, true, none, "note".toList, 10000⟩ : Task)]).fresh
        (performFullSync SYNC_BUFFER 20000 2
          [(⟨0, "A".toList, false, none, "note".toList, 0⟩ : Task)]
          [(⟨1, "A".toList, true, none, "note".toList, 10000⟩ : Task)]).notion
        (performFullSync SYNC_BUFFER 20000 2
          [(⟨0, "A".toList, false, none, "note".toList, 0⟩ : Task)]
          [(⟨1, "A".toList, true, none, "note".toList, 10000⟩ : Task)]).google).created = 0 ∧
      (performFullSync SYNC_BUFFER 30000
        (performFullSync SYNC_BUFFER 20000 2
          [(⟨0, "A".toList, false, none, "note".toList, 0⟩ : Task)]
          [(⟨1, "A".toList, true, none, "note".toList, 10000⟩ : Task)]).fresh
        (performFullSync SYNC_BUFFER 20000 2
          [(⟨0, "A".toList, false, none, "note".toList, 0⟩ : Task)]
          [(⟨1, "A".toList, true, none, "note".toList, 10000⟩ : Task)]).notion
        (performFullSync SYNC_BUFFER 20000 2
          [(⟨0, "A".toList, false, none, "note".toList, 0⟩ : Task)]
          [(⟨1, "A".toList, true, none, "note".toList, 10000⟩ : Task)]).google).updated = 0) :=
  ⟨by decide,
    second_pass_idempotent SYNC_BUFFER 20000 30000 2
      [(⟨0, "A".toList, false, none, "note".toList, 0⟩ : Task)]
      [(⟨1, "A".toList, true, none, "note".toList, 10000⟩ : Task)]
      (by decide) (by decide) (by decide) (by decide) (by decide) (by decide) (by decide)
      (by decide)⟩

/-- C3: for a matched pair whose lastModified stamps differ by at most the
buffer, the phase-1 iteration performs no completion update on either side:
the Notion store is returned untouched and every Google record keeps its id
and completion flag (at most its notes are rewritten).  Moreover the two
completion guards are mutually exclusive for every pair, so at most one
direction can ever fire per pair per iteration, and a tie fires neither. -/
theorem completion_tie_no_flapping (buffer now : Int) (snapN : List Task) (st : SyncState)
    (g n : Task) (hm : findMatch snapN g = some n)
    (hw1 : g.lastModified - n.lastModified ≤ buffer)
    (hw2 : -buffer ≤ g.lastModified - n.lastModified) :
    (processGoogleTask buffer now snapN st g).notion = st.notion ∧
    ((processGoogleTask buffer now snapN st g).google.map (fun t => (t.id, t.completed)) =
      st.google.map (fun t => (t.id, t.completed))) ∧
    ∀ g0 n0 : Task, ¬ (complToNotionB buffer g0 n0 = true ∧
      complToGoogleB buffer g0 n0 = true) := by
  have hA : ¬ g.lastModified - n.lastModified > buffer := by omega
  have hB : ¬ g.lastModified - n.lastModified < -buffer := by omega
  have hcN : complToNotionB buffer g n = false := by simp [complToNotionB, hA]
  have hcG : complToGoogleB buffer g n = false := by simp [complToGoogleB, hB]
  have heff := processGoogleTask_effect buffer now snapN st g
  have hun : unmatchedB snapN g = false := by
    rw [unmatchedB, hm]
    simp
  have hop : notionOpOf buffer snapN g = none := by
    rw [notionOpOf]
    by_cases ht : jsTrim g.title = []
    · rw [if_pos ht]
    · rw [if_neg ht]
      simp only [hm]
      rw [if_neg (by simp [hcN])]
  refine ⟨?_, ?_, ?_⟩
  · rw [heff]
    show applyNotionOp now st.notion (notionOpOf buffer snapN g) ++
      (if unmatchedB snapN g then [mkNotionTask now st.fresh g] else []) = st.notion
    rw [hop, hun]
    simp [applyNotionOp]
  · rw [heff]
    show (applyGoogleStepOf buffer now snapN g st.google).map _ = _
    rw [applyGoogleStepOf]
    by_cases ht : jsTrim g.title = []
    · rw [if_pos ht]
    · rw [if_neg ht]
      simp only [hm]
      by_cases hnw : notesWriteB g n = true
      · simp only [hcG, Bool.false_eq_true, if_false, hnw, if_true]
        exact updateTaskById_map_setNotes st.google g.id now (notesPayload n)
      · have hnw2 : notesWriteB g n = false := Bool.eq_false_iff.mpr hnw
        simp only [hcG, hnw2, Bool.false_eq_true, if_false]
  · intro g0 n0 hcon
    obtain ⟨h1, h2⟩ := hcon
    rw [complToNotionB, Bool.and_eq_true] at h1
    rw [complToGoogleB, Bool.and_eq_true] at h2
    obtain ⟨h2a, _⟩ := h2
    rw [Bool.and_eq_true] at h2a
    have hx := h2a.1
    rw [h1.1] at hx
    simp at hx

/-- C3 witness: the spec's no-flapping scenario with a 1000 ms stamp
difference against the hard-coded 5000 ms buffer; the iteration changes
neither side even though the completion flags differ. -/
theorem completion_tie_no_flapping_witness :
    findMatch [(⟨0, "T".toList, false, none, "a".toList, 0⟩ : Task)]
        (⟨1, "T".toList, true, none, "a".toList, 1000⟩ : Task) =
      some (⟨0, "T".toList, false, none, "a".toList, 0⟩ : Task) ∧
    ((processGoogleTask SYNC_BUFFER 9999
        [(⟨0, "T".toList, false, none, "a".toList, 0⟩ : Task)]
        (⟨[(⟨0, "T".toList, false, none, "a".toList, 0⟩ : Task)],
          [(⟨1, "T".toList, true, none, "a".toList, 1000⟩ : Task)], 0, 0, 2⟩ : SyncState)
        (⟨1, "T".toList, true, none, "a".toList, 1000⟩ : Task)).notion =
      (⟨[(⟨0, "T".toList, false, none, "a".toList, 0⟩ : Task)],
        [(⟨1, "T".toList, true, none, "a".toList, 1000⟩ : Task)], 0, 0, 2⟩ : SyncState).notion ∧
    ((processGoogleTask SYNC_BUFFER 9999
        [(⟨0, "T".toList, false, none, "a".toList, 0⟩ : Task)]
        (⟨[(⟨0, "T".toList, false, none, "a".toList, 0⟩ : Task)],
          [(⟨1, "T".toList, true, none, "a".toList, 1000⟩ : Task)], 0, 0, 2⟩ : SyncState)
        (⟨1, "T".toList, true, none, "a".toList, 1000⟩ : Task)).google.map
        (fun t => (t.id, t.completed)) =
      (⟨[(⟨0, "T".toList, false, none, "a".toList, 0⟩ : Task)],
        [(⟨1, "T".toList, true, none, "a".toList, 1000⟩ : Task)], 0, 0, 2⟩ :
          SyncState).google.map (fun t => (t.id, t.completed))) ∧
    ∀ g0 n0 : Task, ¬ (complToNotionB SYNC_BUFFER g0 n0 = true ∧
      complToGoogleB SYNC_BUFFER g0 n0 = true)) :=
  ⟨by decide,
    completion_tie_no_flapping SYNC_BUFFER 9999
      [(⟨0, "T".toList, false, none, "a".toList, 0⟩ : Task)]
      (⟨[(⟨0, "T".toList, false, none, "a".toList, 0⟩ : Task)],
        [(⟨1, "T".toList, true, none, "a".toList, 1000⟩ : Task)], 0, 0, 2⟩ : SyncState)
      (⟨1, "T".toList, true, none, "a".toList, 1000⟩ : Task)
      (⟨0, "T".toList, false, none, "a".toList, 0⟩ : Task)
      (by decide) (by decide) (by decide)⟩

theorem truncation_suffix_accuracy_witness :
    101 < (List.replicate 150 'a').length ∧
      ((∃ kept : List Char,
          createSmartTruncation (List.replicate 150 'a') 101 =
            kept ++ truncationSuffix ((List.replicate 150 'a').length - kept.length)) ∧
        createSmartTruncation (List.replicate 8500 'a') 8000 =
            List.replicate 7900 'a' ++ truncationSuffix 600 ∧
        600 = 8500 - (List.replicate 7900 'a').length ∧
        (List.replicate 7900 'a').length + (truncationSuffix 600).length ≤ 8000) :=
  ⟨by decide, truncation_suffix_accuracy (List.replicate 150 'a') 101 (by decide)⟩
end SyncSpec
